import Mathlib

/-!
# DroneBridge USB bridge (`usbbridge/usbbridge_main.c`)

A shallow embedding of the frame parser, the inbound router, the outbound
zero-copy writer, the transfer-completion callback, the reconnect block and the
poll registry of the USB bridge, with theorems about them.

Conventions of the embedding:

* a byte (`uint8_t`, `unsigned char`) is a `Nat`; byte buffers are `List Nat`;
* `uint16_t` variables are `Nat` and every store into one is taken `% 65536`;
  expressions the C code evaluates in `int` are computed without wrap-around;
* global variables become fields of explicit state records;
* calls that leave the program (`send`, `libusb_submit_transfer`) are recorded
  in the result, and what they return is an input of the function.
-/

namespace DroneBridge

/-! ## Constants of the headers that are not part of the translation unit -/

/-- Constants that `usbbridge_main.c` takes from `db_protocol.h`, `db_usb.h`
and `linux_aoa.h`.  Their values are not fixed here; theorems state what they
need of them. -/
structure Consts where
  /-- Protocol version octet, third byte of a frame. -/
  DB_USB_PROTO_VERSION : Nat
  /-- Largest payload the raw protocol accepts on the inbound side. -/
  DATA_UNI_LENGTH : Nat
  /-- Capacity of the payload region of the outbound frame buffer. -/
  DB_AOA_MAX_PAY_LENGTH : Nat
  DB_PORT_VIDEO : Nat
  DB_PORT_PROXY : Nat
  DB_PORT_STATUS : Nat
  DB_PORT_COMM : Nat
  DB_USB_PORT_TIMEOUT_WAKE : Nat
  /-- Capacity of the poll array. -/
  MAX_POLL_FDS : Nat
deriving DecidableEq

/-- Modelled from the spec: `DB_AOA_HEADER_LENGTH` of `db_usb.h` is missing;
the spec fixes the header at 6 bytes (magic `'D','B'`, version, port and a
two-byte little-endian payload length). -/
def DB_AOA_HEADER_LENGTH : Nat := 6

/-! ## Parser state (the globals of lines 56-61) -/

/-- Values of `usb_parser_state`. -/
inductive UsbParserState where
  | DB_USB_PARSER_SEARCHING_HEADER
  | DB_USB_PARSER_AWAITING_PAYLOAD
deriving DecidableEq

open UsbParserState

/-- The parser globals.  `db_usb_parser_buffer` is `none` when no block is
allocated and `some bytes` for a live `malloc` block with that content. -/
structure Parser where
  usb_parser_state : UsbParserState
  db_usb_parser_payload_size : Nat
  usb_parser_buff_size : Nat
  db_usb_parser_buffer : Option (List Nat)
  db_usb_parser_port : Nat
deriving DecidableEq

/-- The globals as initialised at program start. -/
def Parser.init : Parser :=
  { usb_parser_state := DB_USB_PARSER_SEARCHING_HEADER
    db_usb_parser_payload_size := 0
    usb_parser_buff_size := 0
    db_usb_parser_buffer := none
    db_usb_parser_port := 0 }

/-- One call of `db_usb_route_data_tcp(payload, port, payload_size)`: the port
and the `payload_size` bytes the pointer designates. -/
structure RouteCall where
  port : Nat
  payload : List Nat
deriving DecidableEq

/-- A fresh block returned by `malloc(n)`.  Its content is indeterminate in C;
the model fills it with zeros, so a byte of the block stands for the C block
only at a position the parser has written. -/
def malloc (n : Nat) : List Nat := List.replicate n 0

/-- Copy `src` into `dst` starting at offset `off`, as `memcpy(&dst[off], src,
src.length)`.  Bytes that would land outside the block are not stored: in C
such a copy runs past the end of the block, and the model keeps only what the
block can hold.  The result stands for the C block only when
`memcpy_overruns dst off src` is false. -/
def memcpy (dst : List Nat) (off : Nat) (src : List Nat) : List Nat :=
  (dst.take off ++ src ++ dst.drop (off + src.length)).take dst.length

/-- Whether `memcpy(&dst[off], src, src.length)` writes past the end of the
block `dst`, which is undefined behaviour in C. -/
def memcpy_overruns (dst : List Nat) (off : Nat) (src : List Nat) : Bool :=
  decide (dst.length < off + src.length)

/-- Embedding of `process_db_usb_proto(buffer, length)` with
`length = buffer.length`.  Returns the new parser globals and the calls of
`db_usb_route_data_tcp` made, in order. -/
def process_db_usb_proto (K : Consts) (st : Parser) (buffer : List Nat) :
    Parser × List RouteCall :=
  let length := buffer.length
  if st.usb_parser_state = DB_USB_PARSER_SEARCHING_HEADER ∧ length ≥ DB_AOA_HEADER_LENGTH then
    if buffer.getD 0 0 = 68 ∧ buffer.getD 1 0 = 66 ∧
        buffer.getD 2 0 = K.DB_USB_PROTO_VERSION then
      let st1 : Parser :=
        { st with
          db_usb_parser_port := buffer.getD 3 0
          db_usb_parser_payload_size :=
            (buffer.getD 4 0 ||| (buffer.getD 5 0 <<< 8)) % 65536 }
      if st1.db_usb_parser_payload_size > K.DATA_UNI_LENGTH then
        (st1, [])
      else if length - DB_AOA_HEADER_LENGTH = st1.db_usb_parser_payload_size then
        (st1, [⟨st1.db_usb_parser_port,
                (buffer.drop DB_AOA_HEADER_LENGTH).take st1.db_usb_parser_payload_size⟩])
      else
        ({ st1 with
            usb_parser_buff_size :=
              (st1.usb_parser_buff_size + (length - DB_AOA_HEADER_LENGTH)) % 65536
            db_usb_parser_buffer :=
              some (memcpy (malloc st1.db_usb_parser_payload_size) 0
                ((buffer.drop DB_AOA_HEADER_LENGTH).take (length - DB_AOA_HEADER_LENGTH)))
            usb_parser_state := DB_USB_PARSER_AWAITING_PAYLOAD }, [])
    else
      (st, [])
  else if st.usb_parser_state = DB_USB_PARSER_AWAITING_PAYLOAD then
    if st.usb_parser_buff_size + length = st.db_usb_parser_payload_size then
      let buf := st.db_usb_parser_buffer.map (fun b => memcpy b st.usb_parser_buff_size buffer)
      ({ st with
          db_usb_parser_buffer := none
          usb_parser_buff_size := 0
          usb_parser_state := DB_USB_PARSER_SEARCHING_HEADER },
        [⟨st.db_usb_parser_port, (buf.getD []).take st.db_usb_parser_payload_size⟩])
    else if st.usb_parser_buff_size + length < st.db_usb_parser_payload_size then
      ({ st with
          db_usb_parser_buffer :=
            st.db_usb_parser_buffer.map (fun b => memcpy b st.usb_parser_buff_size buffer)
          usb_parser_buff_size := (st.usb_parser_buff_size + length) % 65536 }, [])
    else if st.usb_parser_buff_size + length > st.db_usb_parser_payload_size then
      ({ st with
          db_usb_parser_buffer := none
          usb_parser_buff_size := 0
          usb_parser_state := DB_USB_PARSER_SEARCHING_HEADER }, [])
    else
      (st, [])
  else
    (st, [])

/-- Feed consecutive chunks, one call of `process_db_usb_proto` per chunk (one
completed bulk-IN transfer each).  Returns the final globals and, per chunk,
the route calls that chunk caused. -/
def feed (K : Consts) : Parser → List (List Nat) → Parser × List (List RouteCall)
  | st, [] => (st, [])
  | st, c :: cs =>
    let r := process_db_usb_proto K st c
    let r2 := feed K r.1 cs
    (r2.1, r.2 :: r2.2)

/-- The frame of port `port` and payload `p`: `'D','B'`, version, port,
`N & 0xFF`, `N >> 8`, then `p`.  By `raw_usb_msg_buff_frame` these are the
first `N + 6` bytes of the outbound frame buffer once `main` has written the
magic and the version and `db_usb_write_async_zc` the port and the length. -/
def db_usb_frame (K : Consts) (port : Nat) (p : List Nat) : List Nat :=
  [68, 66, K.DB_USB_PROTO_VERSION, port, p.length &&& 0xFF, p.length >>> 8] ++ p

/-! ## Inbound routing (lines 226-256) -/

/-- The module switches set from the command line. -/
structure Modules where
  video_module_activated : Bool
  communication_module_activated : Bool
  proxy_module_activated : Bool
  status_module_activated : Bool
deriving DecidableEq

/-- The local sockets of line 54. -/
inductive Sock where
  | video_unix_socket
  | proxy_sock
  | status_sock
  | communication_sock
deriving DecidableEq

/-- One call `send(sock, payload, payload_size, 0)`. -/
structure Send where
  sock : Sock
  data : List Nat
deriving DecidableEq

/-- Embedding of `db_usb_route_data_tcp(payload, port, payload_size)`: the
`send` calls it makes.  The `switch` is the chain of its case labels in source
order. -/
def db_usb_route_data_tcp (K : Consts) (M : Modules) (payload : List Nat) (port : Nat)
    (payload_size : Nat) : List Send :=
  if port = K.DB_PORT_VIDEO then []
  else if port = K.DB_PORT_PROXY then
    if M.proxy_module_activated then [⟨Sock.proxy_sock, payload.take payload_size⟩] else []
  else if port = K.DB_PORT_STATUS then
    if M.status_module_activated then [⟨Sock.status_sock, payload.take payload_size⟩] else []
  else if port = K.DB_PORT_COMM then
    if M.communication_module_activated then
      [⟨Sock.communication_sock, payload.take payload_size⟩]
    else []
  else if port = K.DB_USB_PORT_TIMEOUT_WAKE then []
  else []

/-- The `send` calls caused by a sequence of route calls. -/
def deliver (K : Consts) (M : Modules) (calls : List RouteCall) : List Send :=
  (calls.map (fun c => db_usb_route_data_tcp K M c.payload c.port c.payload.length)).flatten

/-! ## Outbound zero-copy writer (lines 402-454) -/

/-- The outbound frame buffer seen as `db_usb_msg_t`. -/
structure db_usb_msg_t where
  ident_0 : Nat
  ident_1 : Nat
  ident_2 : Nat
  port : Nat
  pay_lenght : Nat
  payload : List Nat
deriving DecidableEq

/-- Modelled from the spec: the declaration of `db_usb_msg_t` and of
`raw_usb_msg_buff` (`db_usb.h`) is missing.  The byte image of the frame
buffer follows the spec's header layout: magic, version, port, payload length
in two bytes little-endian, then the payload region. -/
def raw_usb_msg_buff (m : db_usb_msg_t) : List Nat :=
  [m.ident_0, m.ident_1, m.ident_2, m.port, m.pay_lenght % 256, m.pay_lenght / 256 % 256]
    ++ m.payload

/-- The header initialisation of `main` (lines 465-468, repeated at 537-540). -/
def init_usb_msg (K : Consts) (m : db_usb_msg_t) : db_usb_msg_t :=
  { m with ident_0 := 68, ident_1 := 66, ident_2 := K.DB_USB_PROTO_VERSION }

/-- A bulk-OUT transfer filled by `libusb_fill_bulk_transfer` over
`&raw_usb_msg_buff[offset]` with the given length and timeout. -/
structure BulkOut where
  offset : Nat
  length : Nat
  timeout : Nat
deriving DecidableEq

/-- The bytes of the frame buffer a transfer covers. -/
def BulkOut.bytes (raw : List Nat) (t : BulkOut) : List Nat :=
  (raw.drop t.offset).take t.length

/-- What one call of `db_usb_write_async_zc` leaves behind. -/
structure WriteResult where
  usb_msg : db_usb_msg_t
  submitted : List BulkOut
  device_connected : Bool
deriving DecidableEq

/-- The `while` loop of lines 434-452.  `submit_ok i` tells whether the `i`-th
call of `libusb_submit_transfer` of this write succeeds.  `none` when the fuel
runs out before the loop condition turns false. -/
def write_loop (submit_ok : Nat → Bool) (data_length max_pack_size : Nat) :
    Nat → Nat → Nat → List BulkOut → Bool → Option (List BulkOut × Bool)
  | 0, _, sent_data_length, submitted, device_connected =>
    if (sent_data_length : Int) < (data_length : Int) + DB_AOA_HEADER_LENGTH then none
    else some (submitted, device_connected)
  | fuel + 1, attempt, sent_data_length, submitted, device_connected =>
    if (sent_data_length : Int) < (data_length : Int) + DB_AOA_HEADER_LENGTH then
      let chuck_size : Nat :=
        if ((data_length : Int) + DB_AOA_HEADER_LENGTH) - sent_data_length ≤ max_pack_size then
          (((data_length : Int) - sent_data_length + DB_AOA_HEADER_LENGTH) % 65536).toNat
        else max_pack_size
      if submit_ok attempt then
        write_loop submit_ok data_length max_pack_size fuel (attempt + 1)
          ((sent_data_length + chuck_size) % 65536)
          (submitted ++ [⟨sent_data_length, chuck_size, 100⟩]) device_connected
      else some (submitted, false)
    else some (submitted, device_connected)

/-- Embedding of `db_usb_write_async_zc(accessory, usb_msg, data_length, port)`
with `max_pack_size = get_db_usb_max_packet_size()`. -/
def db_usb_write_async_zc (submit_ok : Nat → Bool) (max_pack_size fuel : Nat)
    (usb_msg : db_usb_msg_t) (device_connected : Bool) (data_length port : Nat) :
    Option WriteResult :=
  let m : db_usb_msg_t := { usb_msg with port := port, pay_lenght := data_length }
  if data_length ≤ max_pack_size then
    if submit_ok 0 then
      some ⟨m, [⟨0, data_length + DB_AOA_HEADER_LENGTH, 1000⟩], device_connected⟩
    else some ⟨m, [], false⟩
  else
    if submit_ok 0 then
      (write_loop submit_ok data_length max_pack_size fuel 1 ((0 + max_pack_size) % 65536)
        [⟨0, max_pack_size, 1000⟩] device_connected).map (fun r => ⟨m, r.1, r.2⟩)
    else some ⟨m, [], false⟩

/-- Consecutive byte ranges: the first starts at `s`, each next one where the
previous ended, the last ends at `e`. -/
def Contiguous : List BulkOut → Nat → Nat → Prop
  | [], s, e => s = e
  | t :: ts, s, e => t.offset = s ∧ Contiguous ts (s + t.length) e

instance : (ts : List BulkOut) → (s e : Nat) → Decidable (Contiguous ts s e)
  | [], s, e => inferInstanceAs (Decidable (s = e))
  | t :: ts, s, e =>
    have : Decidable (Contiguous ts (s + t.length) e) := instDecidableContiguous ts _ _
    inferInstanceAs (Decidable (t.offset = s ∧ Contiguous ts (s + t.length) e))

/-! ## Completion callback (lines 309-353) -/

/-- Values of `xfr->status`. -/
inductive libusb_transfer_status where
  | LIBUSB_TRANSFER_COMPLETED
  | LIBUSB_TRANSFER_ERROR
  | LIBUSB_TRANSFER_TIMED_OUT
  | LIBUSB_TRANSFER_CANCELLED
  | LIBUSB_TRANSFER_STALL
  | LIBUSB_TRANSFER_NO_DEVICE
  | LIBUSB_TRANSFER_OVERFLOW
deriving DecidableEq

/-- The two endpoints the bridge fills transfers for. -/
inductive Endpoint where
  | AOA_ACCESSORY_EP_IN
  | AOA_ACCESSORY_EP_OUT
deriving DecidableEq

open libusb_transfer_status Endpoint

/-- The fields of `struct libusb_transfer` the callback reads. -/
structure libusb_transfer where
  status : libusb_transfer_status
  endpoint : Endpoint
  buffer : List Nat
  actual_length : Nat
deriving DecidableEq

/-- What one run of the callback leaves behind. -/
structure CallbackResult where
  parser : Parser
  /-- The buffers handed to `process_db_usb_proto`, in order. -/
  parsed : List (List Nat)
  routed : List RouteCall
  sends : List Send
  device_connected : Bool
  /-- Number of calls of `libusb_submit_transfer(xfr)`. -/
  submit_calls : Nat
  /-- The transfer is in flight again. -/
  resubmitted : Bool
  /-- The call `libusb_free_transfer(xfr)` was made. -/
  freed : Bool
deriving DecidableEq

/-- Embedding of `callback_usb_async_complete(xfr)`.  `submit_ok` tells whether
`libusb_submit_transfer` succeeds if it is called. -/
def callback_usb_async_complete (K : Consts) (M : Modules) (submit_ok : Bool)
    (st : Parser) (device_connected : Bool) (xfr : libusb_transfer) : CallbackResult :=
  let r : Parser × List (List Nat) × List RouteCall :=
    match xfr.status with
    | LIBUSB_TRANSFER_COMPLETED =>
      match xfr.endpoint with
      | AOA_ACCESSORY_EP_IN =>
        let q := process_db_usb_proto K st (xfr.buffer.take xfr.actual_length)
        (q.1, [xfr.buffer.take xfr.actual_length], q.2)
      | AOA_ACCESSORY_EP_OUT => (st, [], [])
    | _ => (st, [], [])
  let connected1 : Bool :=
    match xfr.status with
    | LIBUSB_TRANSFER_NO_DEVICE => false
    | _ => device_connected
  if xfr.endpoint = AOA_ACCESSORY_EP_IN then
    if submit_ok then
      ⟨r.1, r.2.1, r.2.2, deliver K M r.2.2, connected1, 1, true, false⟩
    else
      ⟨r.1, r.2.1, r.2.2, deliver K M r.2.2, false, 1, false, true⟩
  else
    ⟨r.1, r.2.1, r.2.2, deliver K M r.2.2, connected1, 0, false, true⟩

/-! ## Reconnect block of the bridge loop (lines 533-552) -/

/-- The variables of `main` and the globals the reconnect block touches. -/
structure Bridge where
  parser : Parser
  usb_msg : db_usb_msg_t
  last_write : Int
  device_connected : Bool
  keeprunning : Bool
deriving DecidableEq

/-- Embedding of the body of `if (!device_connected)` in the loop of `main`.
`init_ok` tells whether `init_db_accessory` succeeds, `submit_ok` whether the
submission inside `db_read_usb_async` does. -/
def recover (K : Consts) (init_ok submit_ok : Bool) (b : Bridge) : Bridge :=
  { parser := { b.parser with usb_parser_state := DB_USB_PARSER_SEARCHING_HEADER }
    usb_msg := init_usb_msg K b.usb_msg
    last_write := 0
    device_connected := if submit_ok then true else false
    keeprunning := if init_ok then b.keeprunning else false }

/-- One pass over the head of the loop of `main`: the reconnect block runs when
the device is not connected. -/
def loop_head (K : Consts) (init_ok submit_ok : Bool) (b : Bridge) : Bridge :=
  if !b.device_connected then recover K init_ok submit_ok b else b

/-! ## Poll registry (line 65, lines 183-224 and 495-523) -/

/-- The fields of `struct pollfd`. -/
structure pollfd where
  fd : Int
  events : Int
  revents : Int
deriving DecidableEq

/-- A zeroed entry, as in a global array before any store. -/
def pollfd.zero : pollfd := ⟨0, 0, 0⟩

/-- Modelled from the spec: the declaration of `struct poll_fd_count_t`
(`db_usb.h`) is missing; it holds the total count of the registry and the count
`U` of USB descriptors.  The total counts the entries in use: it is a `Nat`,
and the only decrement (line 222) runs after an entry was found, so with at
least one entry.  `U` is decremented together with it whatever entry was
removed (line 221), so it is an `Int`. -/
structure poll_fd_count_t where
  total_poll_fd_cnt : Nat
  usb_poll_fd_cnt : Int
deriving DecidableEq

/-- The global array `poll_fds` and the counters `user_data` points to. -/
structure PollState where
  poll_fds : List pollfd
  fd_cnt : poll_fd_count_t
deriving DecidableEq

/-- The stores `p.fd = -1; p.events = -1`. -/
def pollfd.clear (p : pollfd) : pollfd := { p with fd := -1, events := -1 }

/-- Embedding of `usb_fd_added(fd, events, user_data)`. -/
def usb_fd_added (K : Consts) (fd events : Int) (r : PollState) : PollState :=
  if r.fd_cnt.total_poll_fd_cnt < K.MAX_POLL_FDS then
    { poll_fds :=
        r.poll_fds.set r.fd_cnt.total_poll_fd_cnt
          { r.poll_fds.getD r.fd_cnt.total_poll_fd_cnt pollfd.zero with
            fd := fd, events := events }
      fd_cnt :=
        { total_poll_fd_cnt := r.fd_cnt.total_poll_fd_cnt + 1
          usb_poll_fd_cnt := r.fd_cnt.usb_poll_fd_cnt + 1 } }
  else r

/-- One pass through the body of the `for` loop of `usb_fd_removed` at index
`i`, on the array and the flag `rearrange_from_here`. -/
def usb_fd_removed_body (fd : Int) (total : Nat) (s : List pollfd × Bool) (i : Nat) :
    List pollfd × Bool :=
  let s1 : List pollfd × Bool :=
    if (s.1.getD i pollfd.zero).fd = fd then
      (s.1.set i (s.1.getD i pollfd.zero).clear, true)
    else s
  if s1.2 then
    if i = total - 1 then
      (s1.1.set i (s1.1.getD i pollfd.zero).clear, s1.2)
    else
      (s1.1.set i (s1.1.getD (i + 1) pollfd.zero), s1.2)
  else s1

/-- Embedding of `usb_fd_removed(fd, user_data)`: the loop runs over
`i = 0 .. total - 1`, then both counters are lowered if something was
removed. -/
def usb_fd_removed (fd : Int) (r : PollState) : PollState :=
  let s := (List.range r.fd_cnt.total_poll_fd_cnt).foldl
    (usb_fd_removed_body fd r.fd_cnt.total_poll_fd_cnt) (r.poll_fds, false)
  if s.2 then
    { poll_fds := s.1
      fd_cnt :=
        { total_poll_fd_cnt := r.fd_cnt.total_poll_fd_cnt - 1
          usb_poll_fd_cnt := r.fd_cnt.usb_poll_fd_cnt - 1 } }
  else
    { poll_fds := s.1, fd_cnt := r.fd_cnt }

/-- A call the USB backend (or the loop of `main`, line 596) makes on the
registry. -/
inductive FdCall where
  | added (fd events : Int)
  | removed (fd : Int)
deriving DecidableEq

/-- The registry after one call. -/
def FdCall.run (K : Consts) (r : PollState) : FdCall → PollState
  | FdCall.added fd events => usb_fd_added K fd events r
  | FdCall.removed fd => usb_fd_removed fd r

/-- The registry after a sequence of calls. -/
def run_calls (K : Consts) (r : PollState) (calls : List FdCall) : PollState :=
  calls.foldl (FdCall.run K) r

/-! ## Error paths of the parser -/

/-- Whether `process_db_usb_proto` logs an error for the chunk and drops it:
the two calls with `LOG_ERR`, for the oversize declaration (line 270) and for
the overflow while reassembling (line 304).  These are the errors the code
detects, not all malformed chunks: a first chunk longer than its frame is
malformed as well, the code has no test for it, and this function is false
on it. -/
def process_db_usb_proto_rejects (K : Consts) (st : Parser) (buffer : List Nat) : Bool :=
  let length := buffer.length
  if st.usb_parser_state = DB_USB_PARSER_SEARCHING_HEADER ∧ length ≥ DB_AOA_HEADER_LENGTH then
    if buffer.getD 0 0 = 68 ∧ buffer.getD 1 0 = 66 ∧
        buffer.getD 2 0 = K.DB_USB_PROTO_VERSION then
      if (buffer.getD 4 0 ||| (buffer.getD 5 0 <<< 8)) % 65536 > K.DATA_UNI_LENGTH then true
      else false
    else false
  else if st.usb_parser_state = DB_USB_PARSER_AWAITING_PAYLOAD then
    if st.usb_parser_buff_size + length = st.db_usb_parser_payload_size then false
    else if st.usb_parser_buff_size + length < st.db_usb_parser_payload_size then false
    else if st.usb_parser_buff_size + length > st.db_usb_parser_payload_size then true
    else false
  else false

/-! ## Comparing parser states -/

/-- Two parser states agree when they have the same state, cursor and buffer
and, in `AWAITING_PAYLOAD`, the same port and declared size.  The port and the
size are not compared in `SEARCHING_HEADER`, where the parser overwrites them
before it reads them. -/
def Parser.agree (a b : Parser) : Prop :=
  a.usb_parser_state = b.usb_parser_state ∧
  a.usb_parser_buff_size = b.usb_parser_buff_size ∧
  a.db_usb_parser_buffer = b.db_usb_parser_buffer ∧
  (a.usb_parser_state = DB_USB_PARSER_AWAITING_PAYLOAD →
    a.db_usb_parser_port = b.db_usb_parser_port ∧
    a.db_usb_parser_payload_size = b.db_usb_parser_payload_size)

instance (a b : Parser) : Decidable (Parser.agree a b) := by
  unfold Parser.agree
  infer_instance

/-! ## Sample values for concrete checks -/

/-- Sample header constants: version 1 and the proxy port 2 of the spec's
scenarios, a payload limit of 2048 bytes and five distinct port numbers. -/
def sampleConsts : Consts :=
  { DB_USB_PROTO_VERSION := 1, DATA_UNI_LENGTH := 2048, DB_AOA_MAX_PAY_LENGTH := 2048,
    DB_PORT_VIDEO := 3, DB_PORT_PROXY := 2, DB_PORT_STATUS := 5, DB_PORT_COMM := 4,
    DB_USB_PORT_TIMEOUT_WAKE := 9, MAX_POLL_FDS := 8 }

/-- The bytes of `hello`. -/
def hello : List Nat := [104, 101, 108, 108, 111]

/-- Every module activated. -/
def sampleModules : Modules := ⟨true, true, true, true⟩

/-- The bridge at the moment the device goes away in the middle of a frame:
the parser has received the chunk `'D','B',1,2,5,0,'h','e'`. -/
def midFrameBridge : Bridge :=
  { parser := (feed sampleConsts Parser.init [[68, 66, 1, 2, 5, 0, 104, 101]]).1
    usb_msg := init_usb_msg sampleConsts ⟨0, 0, 0, 0, 0, []⟩
    last_write := 1000
    device_connected := false
    keeprunning := true }

/-- A completed bulk-IN transfer whose 1024-byte buffer starts with the frame
of `hello` on port 2. -/
def helloTransfer : libusb_transfer :=
  { status := LIBUSB_TRANSFER_COMPLETED
    endpoint := AOA_ACCESSORY_EP_IN
    buffer := db_usb_frame sampleConsts 2 hello ++ List.replicate 1013 0
    actual_length := 11 }

/-- A registry of eight entries with four in use, two of them USB; the
descriptor 5 occurs twice. -/
def sampleRegistry : PollState :=
  { poll_fds := [⟨1, 1, 0⟩, ⟨5, 2, 0⟩, ⟨5, 3, 0⟩, ⟨7, 4, 0⟩, ⟨9, 9, 9⟩, pollfd.zero, pollfd.zero,
      pollfd.zero]
    fd_cnt := ⟨4, 2⟩ }

theorem length_field_roundtrip (n : Nat) (h : n < 65536) :
    ((n &&& 0xFF) ||| ((n >>> 8) <<< 8)) % 65536 = n := by
  have h1 : n &&& 0xFF = n % 256 := Nat.and_pow_two_sub_one_eq_mod n 8
  have h2 : (n >>> 8) <<< 8 = (n / 256) * 256 := by
    rw [Nat.shiftLeft_eq, Nat.shiftRight_eq_div_pow]
  have h3 : n % 256 < 2 ^ 8 := by omega
  have h4 : (n / 256) * 256 ||| n % 256 = 2 ^ 8 * (n / 256) + n % 256 := by
    rw [Nat.mul_add_lt_is_or h3, Nat.mul_comm]
  rw [h1, h2, Nat.or_comm, h4]
  omega

/-! ## The parser on a whole frame -/

/-- In `SEARCHING_HEADER`, whatever the other globals hold, a chunk that is a
whole frame with an admissible payload is routed at once; only the port and
the declared size are stored. -/
theorem process_whole_frame (K : Consts) (st : Parser) (port : Nat) (p : List Nat)
    (hst : st.usb_parser_state = DB_USB_PARSER_SEARCHING_HEADER)
    (hp : p.length ≤ K.DATA_UNI_LENGTH) (hK : K.DATA_UNI_LENGTH < 65536) :
    process_db_usb_proto K st (db_usb_frame K port p) =
      ({ st with db_usb_parser_port := port, db_usb_parser_payload_size := p.length },
        [⟨port, p⟩]) := by
  have hlen : ((p.length &&& 0xFF) ||| ((p.length >>> 8) <<< 8)) % 65536 = p.length :=
    length_field_roundtrip p.length (by omega)
  have hnot : ¬ K.DATA_UNI_LENGTH < p.length := by omega
  simp only [Nat.reduceAnd] at hlen
  simp [process_db_usb_proto, db_usb_frame, hst, DB_AOA_HEADER_LENGTH, hlen, hnot]

/-- C1: for every port and every payload `p` of at most `DATA_UNI_LENGTH`
(`MAX_PAYLOAD`) bytes, the empty and the longest payload included, the encoded
frame fed as one chunk to the parser in its initial state causes exactly one
route call, `(port, p)`, and leaves the parser in `SEARCHING_HEADER` with
cursor 0. -/
theorem C1_roundtrip_single_chunk (K : Consts) (port : Nat) (p : List Nat)
    (hp : p.length ≤ K.DATA_UNI_LENGTH) (hK : K.DATA_UNI_LENGTH < 65536) :
    (process_db_usb_proto K Parser.init (db_usb_frame K port p)).2 = [⟨port, p⟩] ∧
    (process_db_usb_proto K Parser.init (db_usb_frame K port p)).1.usb_parser_state
      = DB_USB_PARSER_SEARCHING_HEADER ∧
    (process_db_usb_proto K Parser.init (db_usb_frame K port p)).1.usb_parser_buff_size = 0 ∧
    (process_db_usb_proto K Parser.init (db_usb_frame K port p)).1.db_usb_parser_buffer
      = none := by
  rw [process_whole_frame K Parser.init port p rfl hp hK]
  exact ⟨rfl, rfl, rfl, rfl⟩

/-! ## Reassembly -/

theorem memcpy_append (w c : List Nat) (n : Nat) (h : w.length + c.length ≤ n) :
    memcpy (w ++ List.replicate (n - w.length) 0) w.length c
      = (w ++ c) ++ List.replicate (n - (w ++ c).length) 0 := by
  unfold memcpy
  have h1 : (w ++ List.replicate (n - w.length) 0).length = n := by
    simp only [List.length_append, List.length_replicate]; omega
  have h2 : (w ++ List.replicate (n - w.length) 0).take w.length = w := by
    simp
  have h3 : (w ++ List.replicate (n - w.length) 0).drop (w.length + c.length)
      = List.replicate (n - (w ++ c).length) 0 := by
    rw [List.drop_append_eq_append_drop]
    have : w.drop (w.length + c.length) = [] := List.drop_eq_nil_of_le (by omega)
    rw [this]
    simp only [List.nil_append, List.drop_replicate, List.length_append]
    congr 1
    omega
  rw [h1, h2, h3]
  apply List.take_of_length_le
  simp only [List.length_append, List.length_replicate]
  omega

/-- In `AWAITING_PAYLOAD` with `w` received so far, a chunk that does not
complete the payload is appended and nothing is routed. -/
theorem process_awaiting_append (K : Consts) (st : Parser) (p w c : List Nat)
    (hp : p.length < 65536)
    (hst : st.usb_parser_state = DB_USB_PARSER_AWAITING_PAYLOAD)
    (hsz : st.db_usb_parser_payload_size = p.length)
    (hk : st.usb_parser_buff_size = w.length)
    (hb : st.db_usb_parser_buffer = some (w ++ List.replicate (p.length - w.length) 0))
    (hlt : w.length + c.length < p.length) :
    process_db_usb_proto K st c =
      ({ st with
          db_usb_parser_buffer :=
            some ((w ++ c) ++ List.replicate (p.length - (w ++ c).length) 0)
          usb_parser_buff_size := (w ++ c).length }, []) := by
  have hm := memcpy_append w c p.length (by omega)
  have hne : ¬ (w.length + c.length = p.length) := by omega
  have hmod : (w.length + c.length) % 65536 = w.length + c.length := by omega
  simp [process_db_usb_proto, hst, hsz, hk, hb, hlt, hne, hm, hmod]

/-- In `AWAITING_PAYLOAD` with `w` received so far, the chunk that brings the
missing bytes routes the whole payload and resets the parser. -/
theorem process_awaiting_complete (K : Consts) (st : Parser) (p w c : List Nat)
    (hst : st.usb_parser_state = DB_USB_PARSER_AWAITING_PAYLOAD)
    (hsz : st.db_usb_parser_payload_size = p.length)
    (hk : st.usb_parser_buff_size = w.length)
    (hb : st.db_usb_parser_buffer = some (w ++ List.replicate (p.length - w.length) 0))
    (hwc : w ++ c = p) :
    process_db_usb_proto K st c =
      ({ st with
          db_usb_parser_buffer := none
          usb_parser_buff_size := 0
          usb_parser_state := DB_USB_PARSER_SEARCHING_HEADER },
        [⟨st.db_usb_parser_port, p⟩]) := by
  have hl : w.length + c.length = p.length := by rw [← hwc, List.length_append]
  have hm := memcpy_append w c p.length (by omega)
  rw [hwc, Nat.sub_self, List.replicate_zero, List.append_nil] at hm
  simp [process_db_usb_proto, hst, hsz, hk, hb, hl, hm]

/-- In `SEARCHING_HEADER` a chunk shorter than a header changes nothing. -/
theorem process_searching_short (K : Consts) (st : Parser) (c : List Nat)
    (hst : st.usb_parser_state = DB_USB_PARSER_SEARCHING_HEADER)
    (hc : c.length < DB_AOA_HEADER_LENGTH) :
    process_db_usb_proto K st c = (st, []) := by
  have : ¬ (DB_AOA_HEADER_LENGTH ≤ c.length) := by omega
  simp [process_db_usb_proto, hst, this]

/-- In `SEARCHING_HEADER` empty chunks change nothing. -/
theorem feed_searching_empty (K : Consts) (st : Parser)
    (hst : st.usb_parser_state = DB_USB_PARSER_SEARCHING_HEADER) :
    ∀ cs : List (List Nat), cs.flatten = [] →
      feed K st cs = (st, List.replicate cs.length []) := by
  intro cs
  induction cs with
  | nil => intro _; rfl
  | cons c cs ih =>
    intro h
    rw [List.flatten_cons, List.append_eq_nil] at h
    have hc : c.length < DB_AOA_HEADER_LENGTH := by
      rw [h.1]; simp [DB_AOA_HEADER_LENGTH]
    simp only [feed, process_searching_short K st c hst hc, ih h.2, List.length_cons,
      List.replicate_succ]

/-- From `AWAITING_PAYLOAD` with `w` received so far, the chunks that bring the
rest of the payload `p` split as `pre ++ c :: post`, where `c` brings the last
byte: nothing is routed on `pre`, `(port, p)` is routed on `c`, nothing on
`post`, and the parser ends reset. -/
theorem feed_awaiting (K : Consts) (p : List Nat) (hp : p.length < 65536) :
    ∀ (chunks : List (List Nat)) (w : List Nat) (st : Parser),
      st.usb_parser_state = DB_USB_PARSER_AWAITING_PAYLOAD →
      st.db_usb_parser_payload_size = p.length →
      st.usb_parser_buff_size = w.length →
      st.db_usb_parser_buffer = some (w ++ List.replicate (p.length - w.length) 0) →
      w.length < p.length →
      w ++ chunks.flatten = p →
      ∃ pre c post, chunks = pre ++ c :: post ∧
        (w ++ pre.flatten).length < p.length ∧
        w ++ pre.flatten ++ c = p ∧
        (feed K st chunks).2 =
          List.replicate pre.length [] ++
            [⟨st.db_usb_parser_port, p⟩] :: List.replicate post.length [] ∧
        (feed K st chunks).1.usb_parser_state = DB_USB_PARSER_SEARCHING_HEADER ∧
        (feed K st chunks).1.usb_parser_buff_size = 0 ∧
        (feed K st chunks).1.db_usb_parser_buffer = none := by
  intro chunks
  induction chunks with
  | nil =>
    intro w st _ _ _ _ hlt hw
    simp only [List.flatten_nil, List.append_nil] at hw
    rw [hw] at hlt
    exact absurd hlt (Nat.lt_irrefl _)
  | cons c cs ih =>
    intro w st hst hsz hk hb hlt hw
    rw [List.flatten_cons, ← List.append_assoc] at hw
    have hlen : w.length + c.length + cs.flatten.length = p.length := by
      rw [← hw]; simp only [List.length_append]
    by_cases hfull : w.length + c.length = p.length
    · -- this chunk brings the last byte
      have hcs : cs.flatten = [] := List.eq_nil_of_length_eq_zero (by omega)
      have hwc : w ++ c = p := by rw [← hw, hcs, List.append_nil]
      have hstep := process_awaiting_complete K st p w c hst hsz hk hb hwc
      have hrest := feed_searching_empty K
        { st with
          db_usb_parser_buffer := none
          usb_parser_buff_size := 0
          usb_parser_state := DB_USB_PARSER_SEARCHING_HEADER } rfl cs hcs
      refine ⟨[], c, cs, rfl, ?_, ?_, ?_, ?_, ?_, ?_⟩
      · simpa using hlt
      · simpa using hwc
      · simp only [feed, hstep, hrest, List.length_nil, List.replicate_zero, List.nil_append]
      · simp only [feed, hstep, hrest]
      · simp only [feed, hstep, hrest]
      · simp only [feed, hstep, hrest]
    · -- more bytes are still missing
      have hlt2 : w.length + c.length < p.length := by omega
      have hstep := process_awaiting_append K st p w c hp hst hsz hk hb hlt2
      obtain ⟨pre, d, post, hsplit, h1, h2, h3, h4, h5, h6⟩ :=
        ih (w ++ c)
          { st with
            db_usb_parser_buffer :=
              some ((w ++ c) ++ List.replicate (p.length - (w ++ c).length) 0)
            usb_parser_buff_size := (w ++ c).length }
          hst hsz rfl rfl (by simpa using hlt2) hw
      refine ⟨c :: pre, d, post, by rw [hsplit]; rfl, ?_, ?_, ?_, ?_, ?_, ?_⟩
      · simpa [List.flatten_cons, Nat.add_assoc] using h1
      · simpa [List.flatten_cons] using h2
      · simp only [feed, hstep, h3, List.length_cons, List.replicate_succ, List.cons_append]
      · simpa only [feed, hstep] using h4
      · simpa only [feed, hstep] using h5
      · simpa only [feed, hstep] using h6

/-- In `SEARCHING_HEADER` with cursor 0, a chunk holding the header of the
frame of `p` and a proper prefix `w` of `p` allocates the buffer, stores `w`
and moves to `AWAITING_PAYLOAD`. -/
theorem process_header_then_part (K : Consts) (st : Parser) (port : Nat) (p w : List Nat)
    (hst : st.usb_parser_state = DB_USB_PARSER_SEARCHING_HEADER)
    (hk : st.usb_parser_buff_size = 0)
    (hp : p.length ≤ K.DATA_UNI_LENGTH) (hK : K.DATA_UNI_LENGTH < 65536)
    (hw : w.length < p.length) :
    process_db_usb_proto K st
        ([68, 66, K.DB_USB_PROTO_VERSION, port, p.length &&& 0xFF, p.length >>> 8] ++ w) =
      ({ st with
          db_usb_parser_port := port
          db_usb_parser_payload_size := p.length
          usb_parser_buff_size := w.length
          db_usb_parser_buffer := some (w ++ List.replicate (p.length - w.length) 0)
          usb_parser_state := DB_USB_PARSER_AWAITING_PAYLOAD }, []) := by
  have hlen : ((p.length &&& 0xFF) ||| ((p.length >>> 8) <<< 8)) % 65536 = p.length :=
    length_field_roundtrip p.length (by omega)
  have hnot : ¬ K.DATA_UNI_LENGTH < p.length := by omega
  have hne : ¬ (w.length = p.length) := by omega
  have hmod : w.length % 65536 = w.length := by omega
  have hm : memcpy (malloc p.length) 0 w = w ++ List.replicate (p.length - w.length) 0 := by
    have := memcpy_append [] w p.length (by simpa using Nat.le_of_lt hw)
    simpa [malloc] using this
  simp only [Nat.reduceAnd] at hlen
  simp [process_db_usb_proto, hst, hk, DB_AOA_HEADER_LENGTH, hlen, hnot, hne, hmod, hm]

/-- A chunk of at least six bytes that starts a frame is the header followed by
a prefix of the payload. -/
theorem first_chunk_shape (K : Consts) (port : Nat) (p c1 rest : List Nat)
    (h6 : DB_AOA_HEADER_LENGTH ≤ c1.length) (h : c1 ++ rest = db_usb_frame K port p) :
    ∃ w, c1 = [68, 66, K.DB_USB_PROTO_VERSION, port, p.length &&& 0xFF, p.length >>> 8] ++ w
      ∧ w ++ rest = p := by
  unfold db_usb_frame at h
  rcases List.append_eq_append_iff.mp h with ⟨a, ha, hb⟩ | ⟨w, hw, hb⟩
  · have hl := congrArg List.length ha
    simp only [List.length_append, List.length_cons, List.length_nil] at hl
    have ha0 : a = [] := List.eq_nil_of_length_eq_zero (by
      simp only [DB_AOA_HEADER_LENGTH] at h6; omega)
    subst ha0
    refine ⟨[], ?_, ?_⟩
    · simpa using ha.symm
    · simpa using hb
  · exact ⟨w, hw, hb.symm⟩

/-- Header-first reassembly from a reset parser: when the first chunk holds at
least the header and the chunks together are the frame of `p`, the chunks split
as `pre ++ c :: post` with `c` the chunk that brings the last byte of the
frame; nothing is routed on `pre` and `post`, `(port, p)` is routed on `c`, and
the parser ends reset. -/
theorem feed_header_first (K : Consts) (st : Parser) (port : Nat) (p : List Nat)
    (c1 : List Nat) (cs : List (List Nat))
    (hst : st.usb_parser_state = DB_USB_PARSER_SEARCHING_HEADER)
    (hk : st.usb_parser_buff_size = 0)
    (hbuf : st.db_usb_parser_buffer = none)
    (hp : p.length ≤ K.DATA_UNI_LENGTH) (hK : K.DATA_UNI_LENGTH < 65536)
    (h6 : DB_AOA_HEADER_LENGTH ≤ c1.length)
    (hsplit : c1 ++ cs.flatten = db_usb_frame K port p) :
    ∃ pre c post, c1 :: cs = pre ++ c :: post ∧
      pre.flatten.length < (db_usb_frame K port p).length ∧
      pre.flatten ++ c = db_usb_frame K port p ∧
      (feed K st (c1 :: cs)).2 =
        List.replicate pre.length [] ++ [⟨port, p⟩] :: List.replicate post.length [] ∧
      (feed K st (c1 :: cs)).1.usb_parser_state = DB_USB_PARSER_SEARCHING_HEADER ∧
      (feed K st (c1 :: cs)).1.usb_parser_buff_size = 0 ∧
      (feed K st (c1 :: cs)).1.db_usb_parser_buffer = none := by
  obtain ⟨w, hc1, hw⟩ := first_chunk_shape K port p c1 cs.flatten h6 hsplit
  have hlen : w.length + cs.flatten.length = p.length := by
    rw [← hw, List.length_append]
  have hflen : (db_usb_frame K port p).length = 6 + p.length := by
    simp [db_usb_frame]; omega
  by_cases hfull : w.length = p.length
  · -- the first chunk is the whole frame
    have hcs : cs.flatten = [] := List.eq_nil_of_length_eq_zero (by omega)
    have hwp : w = p := by rw [← hw, hcs, List.append_nil]
    have hc1f : c1 = db_usb_frame K port p := by rw [hc1, hwp]; rfl
    have hstep := process_whole_frame K st port p hst hp hK
    have hrest := feed_searching_empty K
      { st with db_usb_parser_port := port, db_usb_parser_payload_size := p.length }
      hst cs hcs
    have hfeed : feed K st (c1 :: cs) =
        ({ st with db_usb_parser_port := port, db_usb_parser_payload_size := p.length },
          [⟨port, p⟩] :: List.replicate cs.length []) := by
      simp only [feed, hc1f, hstep, hrest]
    rw [hfeed]
    refine ⟨[], c1, cs, rfl, ?_, ?_, ?_, hst, hk, hbuf⟩
    · rw [hflen]; simp
    · simpa using hc1f
    · simp only [List.length_nil, List.replicate_zero, List.nil_append]
  · -- the first chunk holds a proper prefix of the payload
    have hwlt : w.length < p.length := by omega
    have hstep := process_header_then_part K st port p w hst hk hp hK hwlt
    rw [← hc1] at hstep
    obtain ⟨pre, d, post, hsp, h1, h2, h3, h4, h5, h6'⟩ :=
      feed_awaiting K p (by omega) cs w
        { st with
          db_usb_parser_port := port
          db_usb_parser_payload_size := p.length
          usb_parser_buff_size := w.length
          db_usb_parser_buffer := some (w ++ List.replicate (p.length - w.length) 0)
          usb_parser_state := DB_USB_PARSER_AWAITING_PAYLOAD }
        rfl rfl rfl rfl hwlt hw
    refine ⟨c1 :: pre, d, post, by rw [hsp]; rfl, ?_, ?_, ?_, ?_, ?_, ?_⟩
    · rw [hflen, List.flatten_cons, hc1]
      simp only [List.length_append, List.length_cons, List.length_nil] at h1 ⊢
      omega
    · rw [List.flatten_cons, hc1, List.append_assoc, List.append_assoc, ← List.append_assoc w,
        h2]
      rfl
    · simp only [feed, hstep, h3, List.length_cons, List.replicate_succ, List.cons_append]
    · simpa only [feed, hstep] using h4
    · simpa only [feed, hstep] using h5
    · simpa only [feed, hstep] using h6'

theorem flatten_single_event (n m : Nat) (x : List RouteCall) :
    (List.replicate n ([] : List RouteCall) ++ x :: List.replicate m []).flatten = x := by
  have h : ∀ k : Nat, (List.replicate k ([] : List RouteCall)).flatten = [] := by
    intro k
    induction k with
    | zero => rfl
    | succ k ih => simp [List.replicate_succ, ih]
  rw [List.flatten_append, List.flatten_cons, h n, h m]
  simp

/-! ## Claims C1 to C3: decoding an encoded frame -/

/-- Witness of C1 with the spec's `hello` frame on port 2. -/
theorem C1_roundtrip_single_chunk_witness :
    (process_db_usb_proto sampleConsts Parser.init (db_usb_frame sampleConsts 2 hello)).2
        = [⟨2, hello⟩] ∧
    (process_db_usb_proto sampleConsts Parser.init
        (db_usb_frame sampleConsts 2 hello)).1.usb_parser_state
      = DB_USB_PARSER_SEARCHING_HEADER ∧
    (process_db_usb_proto sampleConsts Parser.init
        (db_usb_frame sampleConsts 2 hello)).1.usb_parser_buff_size = 0 ∧
    (process_db_usb_proto sampleConsts Parser.init
        (db_usb_frame sampleConsts 2 hello)).1.db_usb_parser_buffer = none :=
  C1_roundtrip_single_chunk sampleConsts 2 hello (by decide) (by decide)

/-- C2, counterexample: the frame of `hello` on port 2 fed byte by byte from
the initial state causes no route call at all, and so does the split
`'D'` / rest of the frame. -/
theorem C2_counterexample_byte_by_byte :
    ((db_usb_frame sampleConsts 2 hello).map (fun b => [b])).flatten
        = db_usb_frame sampleConsts 2 hello ∧
    hello.length ≤ sampleConsts.DATA_UNI_LENGTH ∧
    (feed sampleConsts Parser.init
        ((db_usb_frame sampleConsts 2 hello).map (fun b => [b]))).2.flatten = [] ∧
    ([68] :: [[66, 1, 2, 5, 0, 104, 101, 108, 108, 111]]).flatten
        = db_usb_frame sampleConsts 2 hello ∧
    (feed sampleConsts Parser.init
        ([68] :: [[66, 1, 2, 5, 0, 104, 101, 108, 108, 111]])).2.flatten = [] := by
  decide

/-- C2, amended: for every port, every payload `p` of at most `DATA_UNI_LENGTH`
bytes and every partitioning of the encoded frame into consecutive chunks whose
first non-empty chunk holds at least the six header bytes, feeding the chunks
in order from the initial parser state causes exactly one route call, and it
is `(port, p)`. -/
theorem C2_partition_header_in_first_chunk (K : Consts) (port : Nat) (p : List Nat)
    (chunks : List (List Nat))
    (hp : p.length ≤ K.DATA_UNI_LENGTH) (hK : K.DATA_UNI_LENGTH < 65536)
    (hsplit : chunks.flatten = db_usb_frame K port p)
    (hfirst : ∀ c, (chunks.filter (fun c => !c.isEmpty)).head? = some c →
      DB_AOA_HEADER_LENGTH ≤ c.length) :
    (feed K Parser.init chunks).2.flatten = [⟨port, p⟩] := by
  induction chunks with
  | nil =>
    exfalso
    have := congrArg List.length hsplit
    simp [db_usb_frame] at this
  | cons c cs ih =>
    cases c with
    | nil =>
      have hstep : process_db_usb_proto K Parser.init [] = (Parser.init, []) :=
        process_searching_short K Parser.init [] rfl (by simp [DB_AOA_HEADER_LENGTH])
      have h := ih (by simpa using hsplit) (by simpa using hfirst)
      simp only [feed, hstep, List.flatten_cons, List.nil_append]
      exact h
    | cons b bs =>
      have h6 : DB_AOA_HEADER_LENGTH ≤ (b :: bs).length := hfirst (b :: bs) (by simp)
      obtain ⟨pre, d, post, _, _, _, htr, _⟩ :=
        feed_header_first K Parser.init port p (b :: bs) cs rfl rfl rfl hp hK h6
          (by simpa using hsplit)
      rw [htr]
      exact flatten_single_event _ _ _

/-- Witness of C2 as amended: an empty chunk, then the header with `he`, then
`l`, then `lo`. -/
theorem C2_partition_header_in_first_chunk_witness :
    (feed sampleConsts Parser.init
      [[], [68, 66, 1, 2, 5, 0, 104, 101], [108], [108, 111]]).2.flatten = [⟨2, hello⟩] :=
  C2_partition_header_in_first_chunk sampleConsts 2 hello
    [[], [68, 66, 1, 2, 5, 0, 104, 101], [108], [108, 111]]
    (by decide) (by decide) (by decide) (by
      intro c hc
      simp at hc
      subst hc
      decide)

/-- C3: for every port, every payload `p` of at most `DATA_UNI_LENGTH` bytes
and every split of the encoded frame into consecutive chunks `c1 :: cs` whose
first chunk holds at least the six header bytes, the chunks are
`pre ++ c :: post` with `c` the chunk that delivers the last byte of the frame;
fed in order from the initial parser state, no chunk of `pre` causes a route
call, `c` causes exactly the route call `(port, p)`, no chunk after it causes
one, and the parser ends in `SEARCHING_HEADER` with cursor 0 and no buffer. -/
theorem C3_header_first_reassembly (K : Consts) (port : Nat) (p : List Nat)
    (c1 : List Nat) (cs : List (List Nat))
    (hp : p.length ≤ K.DATA_UNI_LENGTH) (hK : K.DATA_UNI_LENGTH < 65536)
    (h6 : DB_AOA_HEADER_LENGTH ≤ c1.length)
    (hsplit : (c1 :: cs).flatten = db_usb_frame K port p) :
    ∃ pre c post, c1 :: cs = pre ++ c :: post ∧
      pre.flatten.length < (db_usb_frame K port p).length ∧
      pre.flatten ++ c = db_usb_frame K port p ∧
      (feed K Parser.init (c1 :: cs)).2 =
        List.replicate pre.length [] ++ [⟨port, p⟩] :: List.replicate post.length [] ∧
      (feed K Parser.init (c1 :: cs)).1.usb_parser_state = DB_USB_PARSER_SEARCHING_HEADER ∧
      (feed K Parser.init (c1 :: cs)).1.usb_parser_buff_size = 0 ∧
      (feed K Parser.init (c1 :: cs)).1.db_usb_parser_buffer = none :=
  feed_header_first K Parser.init port p c1 cs rfl rfl rfl hp hK h6
    (by simpa using hsplit)

/-- Witness of C3, the spec's fragmented `hello`: the header with `he`, then
`llo`, gives no route call on the first chunk and `hello` on port 2 on the
second. -/
theorem C3_header_first_reassembly_witness :
    (∃ pre c post,
      [68, 66, 1, 2, 5, 0, 104, 101] :: [[108, 108, 111]] = pre ++ c :: post ∧
      pre.flatten.length < (db_usb_frame sampleConsts 2 hello).length ∧
      pre.flatten ++ c = db_usb_frame sampleConsts 2 hello ∧
      (feed sampleConsts Parser.init ([68, 66, 1, 2, 5, 0, 104, 101] :: [[108, 108, 111]])).2 =
        List.replicate pre.length [] ++ [⟨2, hello⟩] :: List.replicate post.length [] ∧
      (feed sampleConsts Parser.init
        ([68, 66, 1, 2, 5, 0, 104, 101] :: [[108, 108, 111]])).1.usb_parser_state
          = DB_USB_PARSER_SEARCHING_HEADER ∧
      (feed sampleConsts Parser.init
        ([68, 66, 1, 2, 5, 0, 104, 101] :: [[108, 108, 111]])).1.usb_parser_buff_size = 0 ∧
      (feed sampleConsts Parser.init
        ([68, 66, 1, 2, 5, 0, 104, 101] :: [[108, 108, 111]])).1.db_usb_parser_buffer = none) ∧
    (feed sampleConsts Parser.init ([68, 66, 1, 2, 5, 0, 104, 101] :: [[108, 108, 111]])).2
      = [[], [⟨2, hello⟩]] :=
  ⟨C3_header_first_reassembly sampleConsts 2 hello [68, 66, 1, 2, 5, 0, 104, 101]
      [[108, 108, 111]] (by decide) (by decide) (by decide) (by decide),
    by decide⟩

/-! ## The outbound writer -/

theorem contiguous_le : ∀ (ts : List BulkOut) (s e : Nat), Contiguous ts s e → s ≤ e := by
  intro ts
  induction ts with
  | nil => intro s e h; exact Nat.le_of_eq h
  | cons t ts ih =>
    intro s e h
    have := ih _ _ h.2
    omega

/-- Consecutive ranges from `s` to `e` cover, in order, exactly the bytes
`s .. e` of the buffer. -/
theorem contiguous_bytes (raw : List Nat) :
    ∀ (ts : List BulkOut) (s e : Nat), Contiguous ts s e →
      (ts.map (BulkOut.bytes raw)).flatten = (raw.drop s).take (e - s) := by
  intro ts
  induction ts with
  | nil =>
    intro s e h
    have h' : s = e := h
    simp [h']
  | cons t ts ih =>
    intro s e h
    have hle := contiguous_le ts _ _ h.2
    have hrec := ih _ _ h.2
    have hsplit : e - s = t.length + (e - (s + t.length)) := by omega
    rw [List.map_cons, List.flatten_cons, hrec, hsplit, List.take_add, List.drop_drop]
    simp only [BulkOut.bytes, h.1]

/-- The loop of the split branch: with every submission accepted and enough
fuel it ends, and the transfers it adds are consecutive from the current
offset to the end of the frame, each of 1 to `max_pack_size` bytes. -/
theorem write_loop_spec (submit_ok : Nat → Bool) (N mps : Nat)
    (hok : ∀ i, submit_ok i = true) (hmps : 1 ≤ mps) (hN : N + 6 < 65536) :
    ∀ (fuel attempt sent : Nat) (acc : List BulkOut) (conn : Bool),
      sent ≤ N + 6 → N + 6 - sent ≤ fuel →
      ∃ ts, write_loop submit_ok N mps fuel attempt sent acc conn = some (acc ++ ts, conn) ∧
        Contiguous ts sent (N + 6) ∧ (∀ t ∈ ts, 1 ≤ t.length ∧ t.length ≤ mps) := by
  intro fuel
  induction fuel with
  | zero =>
    intro attempt sent acc conn hle hfuel
    have hs : sent = N + 6 := by omega
    refine ⟨[], ?_, hs, by simp⟩
    have hc : ¬ ((sent : Int) < (N : Int) + (DB_AOA_HEADER_LENGTH : Nat)) := by
      simp only [DB_AOA_HEADER_LENGTH]; omega
    simp [write_loop, hc]
  | succ fuel ih =>
    intro attempt sent acc conn hle hfuel
    by_cases hlt : sent < N + 6
    · have hc : (sent : Int) < (N : Int) + (DB_AOA_HEADER_LENGTH : Nat) := by
        simp only [DB_AOA_HEADER_LENGTH]; omega
      by_cases hfit : N + 6 ≤ sent + mps
      · -- last chunk
        have hc2 : ((N : Int) + (DB_AOA_HEADER_LENGTH : Nat)) - sent ≤ mps := by
          simp only [DB_AOA_HEADER_LENGTH]; omega
        have hch : ((((N : Int) - sent + (DB_AOA_HEADER_LENGTH : Nat)) % 65536).toNat)
            = N + 6 - sent := by
          simp only [DB_AOA_HEADER_LENGTH]; omega
        have hsent : (sent + (N + 6 - sent)) % 65536 = N + 6 := by omega
        obtain ⟨ts, h1, h2, h3⟩ := ih (attempt + 1) (N + 6)
          (acc ++ [⟨sent, N + 6 - sent, 100⟩]) conn (Nat.le_refl _) (by omega)
        refine ⟨⟨sent, N + 6 - sent, 100⟩ :: ts, ?_, ⟨rfl, ?_⟩, ?_⟩
        · rw [write_loop]
          simp only [hc, hc2, hch, hok, hsent, if_true]
          rw [h1, List.append_assoc]
          rfl
        · have : sent + (N + 6 - sent) = N + 6 := by omega
          simpa [this] using h2
        · intro t ht
          rcases List.mem_cons.mp ht with h | h
          · subst h
            simp only
            omega
          · exact h3 t h
      · -- a full chunk
        have hc2 : ¬ (((N : Int) + (DB_AOA_HEADER_LENGTH : Nat)) - sent ≤ mps) := by
          simp only [DB_AOA_HEADER_LENGTH]; omega
        have hsent : (sent + mps) % 65536 = sent + mps := by omega
        obtain ⟨ts, h1, h2, h3⟩ := ih (attempt + 1) (sent + mps)
          (acc ++ [⟨sent, mps, 100⟩]) conn (by omega) (by omega)
        refine ⟨⟨sent, mps, 100⟩ :: ts, ?_, ⟨rfl, h2⟩, ?_⟩
        · rw [write_loop]
          simp only [hc, hc2, hok, hsent, if_true, if_false]
          rw [h1, List.append_assoc]
          rfl
        · intro t ht
          rcases List.mem_cons.mp ht with h | h
          · subst h
            simp only
            omega
          · exact h3 t h
    · have hs : sent = N + 6 := by omega
      have hc : ¬ ((sent : Int) < (N : Int) + (DB_AOA_HEADER_LENGTH : Nat)) := by
        simp only [DB_AOA_HEADER_LENGTH]; omega
      refine ⟨[], ?_, hs, by simp⟩
      rw [write_loop]
      simp [hc]

theorem contiguous_offset_ge : ∀ (ts : List BulkOut) (s e : Nat), Contiguous ts s e →
    ∀ u ∈ ts, s ≤ u.offset := by
  intro ts
  induction ts with
  | nil => intro s e _ u hu; cases hu
  | cons t ts ih =>
    intro s e h u hu
    rcases List.mem_cons.mp hu with hu | hu
    · subst hu; exact Nat.le_of_eq h.1.symm
    · have := ih _ _ h.2 u hu
      omega

/-- The first `N + 6` bytes of the frame buffer, once `main` has written the
magic and the version and the writer the port and the length, are the frame of
the first `N` bytes of the payload region. -/
theorem raw_usb_msg_buff_frame (K : Consts) (m : db_usb_msg_t) (port N : Nat)
    (hN : N < 65536) (hpay : N ≤ m.payload.length) :
    (raw_usb_msg_buff { init_usb_msg K m with port := port, pay_lenght := N }).take (N + 6)
      = db_usb_frame K port (m.payload.take N) := by
  have hl : (m.payload.take N).length = N := by
    rw [List.length_take]; omega
  have h1 : N &&& 0xFF = N % 256 := Nat.and_pow_two_sub_one_eq_mod N 8
  have h2 : N >>> 8 = N / 256 % 256 := by
    rw [Nat.shiftRight_eq_div_pow]; omega
  simp only [Nat.reduceAnd] at h1
  simp only [raw_usb_msg_buff, init_usb_msg, db_usb_frame, hl, h1, h2]
  simp [List.take_append_eq_append_take]

/-- What the writer does when every submission is accepted: it returns, the
submitted ranges are consecutive from 0 to `N + 6`, none is empty, and in
submission order they carry the frame of the payload. -/
theorem write_async_zc_spec (K : Consts) (m : db_usb_msg_t) (port N mps fuel : Nat)
    (submit_ok : Nat → Bool) (conn : Bool)
    (hN : N + 6 < 65536)
    (hmps : 1 ≤ mps) (hok : ∀ i, submit_ok i = true) (hfuel : N + 6 ≤ fuel) :
    ∃ r, db_usb_write_async_zc submit_ok mps fuel (init_usb_msg K m) conn N port = some r ∧
      r.usb_msg = { init_usb_msg K m with port := port, pay_lenght := N } ∧
      Contiguous r.submitted 0 (N + 6) ∧
      (∀ t ∈ r.submitted, 1 ≤ t.length) ∧
      (N ≤ mps → r.submitted = [⟨0, N + 6, 1000⟩]) ∧
      (mps < N → ∃ ts, r.submitted = ⟨0, mps, 1000⟩ :: ts ∧
        ∀ t ∈ ts, t.length ≤ mps) := by
  by_cases hsmall : N ≤ mps
  · refine ⟨⟨{ init_usb_msg K m with port := port, pay_lenght := N },
      [⟨0, N + 6, 1000⟩], conn⟩, ?_, rfl, ?_, ?_, ?_, ?_⟩
    · simp [db_usb_write_async_zc, hsmall, hok, DB_AOA_HEADER_LENGTH]
    · exact ⟨rfl, by simp [Contiguous]⟩
    · intro t ht
      simp only [List.mem_singleton] at ht
      subst ht
      simp
    · intro _; rfl
    · intro h; omega
  · have hmod : (0 + mps) % 65536 = mps := by omega
    obtain ⟨ts, h1, h2, h3⟩ := write_loop_spec submit_ok N mps hok hmps hN fuel 1 mps
      [⟨0, mps, 1000⟩] conn (by omega) (by omega)
    refine ⟨⟨{ init_usb_msg K m with port := port, pay_lenght := N },
      ⟨0, mps, 1000⟩ :: ts, conn⟩, ?_, rfl, ?_, ?_, ?_, ?_⟩
    · simp only [db_usb_write_async_zc, hsmall, hok, hmod, h1, if_true, if_false,
        Option.map_some']
      rfl
    · exact ⟨rfl, by simpa using h2⟩
    · intro t ht
      rcases List.mem_cons.mp ht with h | h
      · subst h; exact hmps
      · exact (h3 t h).1
    · intro h; omega
    · intro _
      exact ⟨ts, rfl, fun t ht => (h3 t ht).2⟩

/-! ## Claims C4 and C5: outbound fragmentation -/

/-- What the writer puts on the wire when every submission is accepted: for a
payload of `N ≤ DB_AOA_MAX_PAY_LENGTH` bytes in the frame buffer and
`max_packet_size ≥ 1` the call returns, the byte ranges of the transfers it
submitted are non-empty and consecutive from offset 0 to offset `N + 6`, and
their bytes in submission order are the six header bytes followed by the `N`
payload bytes.  When `max_packet_size ≥ 6` or `N ≤ max_packet_size` the first
transfer holds the whole header and every later transfer starts at offset 6 or
later. -/
theorem write_async_zc_covers_frame (K : Consts) (m : db_usb_msg_t) (port N mps fuel : Nat)
    (submit_ok : Nat → Bool) (conn : Bool)
    (hN : N ≤ K.DB_AOA_MAX_PAY_LENGTH)
    (hK : K.DB_AOA_MAX_PAY_LENGTH + DB_AOA_HEADER_LENGTH < 65536)
    (hpay : N ≤ m.payload.length)
    (hmps : 1 ≤ mps) (hok : ∀ i, submit_ok i = true)
    (hfuel : N + DB_AOA_HEADER_LENGTH ≤ fuel) :
    ∃ r, db_usb_write_async_zc submit_ok mps fuel (init_usb_msg K m) conn N port = some r ∧
      Contiguous r.submitted 0 (N + DB_AOA_HEADER_LENGTH) ∧
      (∀ t ∈ r.submitted, 1 ≤ t.length) ∧
      (r.submitted.map (BulkOut.bytes (raw_usb_msg_buff r.usb_msg))).flatten
        = db_usb_frame K port (m.payload.take N) ∧
      (DB_AOA_HEADER_LENGTH ≤ mps ∨ N ≤ mps →
        ∃ t ts, r.submitted = t :: ts ∧ t.offset = 0 ∧ DB_AOA_HEADER_LENGTH ≤ t.length ∧
          ∀ u ∈ ts, DB_AOA_HEADER_LENGTH ≤ u.offset) := by
  simp only [DB_AOA_HEADER_LENGTH] at hK hfuel ⊢
  obtain ⟨r, hr, hmsg, hcont, hpos, hone, hmany⟩ :=
    write_async_zc_spec K m port N mps fuel submit_ok conn (by omega) hmps hok hfuel
  refine ⟨r, hr, hcont, hpos, ?_, ?_⟩
  · rw [contiguous_bytes _ _ _ _ hcont, hmsg]
    simpa using raw_usb_msg_buff_frame K m port N (by omega) hpay
  · intro hcase
    by_cases hsmall : N ≤ mps
    · refine ⟨⟨0, N + 6, 1000⟩, [], hone hsmall, rfl, ?_, ?_⟩
      · simp
      · intro u hu; cases hu
    · obtain ⟨ts, hts, _⟩ := hmany (by omega)
      have h6 : 6 ≤ mps := by omega
      refine ⟨⟨0, mps, 1000⟩, ts, hts, rfl, h6, ?_⟩
      intro u hu
      rw [hts] at hcont
      have := contiguous_offset_ge ts _ _ hcont.2 u hu
      simp only at this
      omega

/-- C4, the code at the failing input: with `max_packet_size = 4` and the five
bytes of `hello` for port 2 in the frame buffer, every submission accepted,
the writer takes the split branch and submits the ranges 0..4, 4..8 and 8..11.
Their bytes in submission order are the frame, but the first transfer carries
only `'D','B',1,2`: the two bytes of the length field, which belong to the
header, travel in the second transfer together with `'h','e'`.  The header is
not in the first transfer only, and the second transfer is not pure data. -/
theorem C4_small_packet_splits_header :
    db_usb_write_async_zc (fun _ => true) 4 11
        (init_usb_msg sampleConsts ⟨0, 0, 0, 0, 0, hello⟩) true 5 2
      = some ⟨⟨68, 66, 1, 2, 5, hello⟩,
          [⟨0, 4, 1000⟩, ⟨4, 4, 100⟩, ⟨8, 3, 100⟩], true⟩ ∧
    BulkOut.bytes (raw_usb_msg_buff ⟨68, 66, 1, 2, 5, hello⟩) ⟨0, 4, 1000⟩ = [68, 66, 1, 2] ∧
    BulkOut.bytes (raw_usb_msg_buff ⟨68, 66, 1, 2, 5, hello⟩) ⟨4, 4, 100⟩ = [5, 0, 104, 101] ∧
    BulkOut.bytes (raw_usb_msg_buff ⟨68, 66, 1, 2, 5, hello⟩) ⟨8, 3, 100⟩ = [108, 108, 111] ∧
    ([⟨0, 4, 1000⟩, ⟨4, 4, 100⟩, ⟨8, 3, 100⟩].map
        (BulkOut.bytes (raw_usb_msg_buff ⟨68, 66, 1, 2, 5, hello⟩))).flatten
      = db_usb_frame sampleConsts 2 hello := by
  decide

/-- C5, the code at the failing input: with `max_packet_size = 16` a payload of
12 bytes makes a frame of 18 bytes, longer than `max_packet_size`, and the
writer submits it as one transfer of 18 bytes.  The spec's scenario of 40
payload bytes is split as 16, 16 and 14 bytes. -/
theorem C5_single_transfer_longer_than_max_packet :
    (db_usb_write_async_zc (fun _ => true) 16 18
        (init_usb_msg sampleConsts ⟨0, 0, 0, 0, 0, List.replicate 12 7⟩) true 12 3).map
          (fun r => r.submitted)
      = some [⟨0, 18, 1000⟩] ∧
    (db_usb_write_async_zc (fun _ => true) 16 46
        (init_usb_msg sampleConsts ⟨0, 0, 0, 0, 0, List.replicate 40 7⟩) true 40 3).map
          (fun r => r.submitted)
      = some [⟨0, 16, 1000⟩, ⟨16, 16, 100⟩, ⟨32, 14, 100⟩] := by
  decide

/-! ## Claims C6 and C7: malformed input -/

theorem declared_length_lt (b4 b5 : Nat) (h4 : b4 < 256) (h5 : b5 < 256) :
    b4 ||| (b5 <<< 8) < 65536 := by
  have h : b5 <<< 8 < 2 ^ 16 := by rw [Nat.shiftLeft_eq]; omega
  have h' : b4 < 2 ^ 16 := by omega
  exact Nat.or_lt_two_pow h' h

/-- C6: for every chunk of at least 6 bytes received in `SEARCHING_HEADER` that
starts with `'D','B'`, version and declares a length `N = b4 | (b5 << 8)`
greater than `DATA_UNI_LENGTH`, the parser makes no route call, leaves the
buffer pointer as it was (nothing is allocated), stays in `SEARCHING_HEADER`
and keeps the cursor; a valid whole frame fed as the next chunk is then routed
as exactly its `(port, payload)`, and state, cursor and buffer are still
unchanged. -/
theorem C6_oversize_rejected (K : Consts) (st : Parser) (chunk : List Nat)
    (hK : K.DATA_UNI_LENGTH < 65536)
    (hbytes : ∀ b ∈ chunk, b < 256)
    (hst : st.usb_parser_state = DB_USB_PARSER_SEARCHING_HEADER)
    (hlen : DB_AOA_HEADER_LENGTH ≤ chunk.length)
    (h0 : chunk.getD 0 0 = 68) (h1 : chunk.getD 1 0 = 66)
    (h2 : chunk.getD 2 0 = K.DB_USB_PROTO_VERSION)
    (hbig : K.DATA_UNI_LENGTH < chunk.getD 4 0 ||| (chunk.getD 5 0 <<< 8)) :
    (process_db_usb_proto K st chunk).2 = [] ∧
    (process_db_usb_proto K st chunk).1.db_usb_parser_buffer = st.db_usb_parser_buffer ∧
    (process_db_usb_proto K st chunk).1.usb_parser_state = DB_USB_PARSER_SEARCHING_HEADER ∧
    (process_db_usb_proto K st chunk).1.usb_parser_buff_size = st.usb_parser_buff_size ∧
    ∀ (port : Nat) (p : List Nat), p.length ≤ K.DATA_UNI_LENGTH →
      (process_db_usb_proto K (process_db_usb_proto K st chunk).1 (db_usb_frame K port p)).2
        = [⟨port, p⟩] ∧
      (process_db_usb_proto K (process_db_usb_proto K st chunk).1
        (db_usb_frame K port p)).1.usb_parser_state = DB_USB_PARSER_SEARCHING_HEADER ∧
      (process_db_usb_proto K (process_db_usb_proto K st chunk).1
        (db_usb_frame K port p)).1.usb_parser_buff_size = st.usb_parser_buff_size ∧
      (process_db_usb_proto K (process_db_usb_proto K st chunk).1
        (db_usb_frame K port p)).1.db_usb_parser_buffer = st.db_usb_parser_buffer := by
  have h4 : chunk.getD 4 0 < 256 := by
    have hi : 4 < chunk.length := by simp only [DB_AOA_HEADER_LENGTH] at hlen; omega
    rw [List.getD_eq_getElem _ _ hi]
    exact hbytes _ (List.getElem_mem hi)
  have h5 : chunk.getD 5 0 < 256 := by
    have hi : 5 < chunk.length := by simp only [DB_AOA_HEADER_LENGTH] at hlen; omega
    rw [List.getD_eq_getElem _ _ hi]
    exact hbytes _ (List.getElem_mem hi)
  have hlt := declared_length_lt _ _ h4 h5
  have hmod : (chunk.getD 4 0 ||| (chunk.getD 5 0 <<< 8)) % 65536
      = chunk.getD 4 0 ||| (chunk.getD 5 0 <<< 8) := Nat.mod_eq_of_lt hlt
  have hstep : process_db_usb_proto K st chunk =
      ({ st with
          db_usb_parser_port := chunk.getD 3 0
          db_usb_parser_payload_size := chunk.getD 4 0 ||| (chunk.getD 5 0 <<< 8) }, []) := by
    simp only [process_db_usb_proto, hst, hlen, h0, h1, h2, hmod, hbig, ge_iff_le, gt_iff_lt,
      and_self, if_true]
  refine ⟨by rw [hstep], by rw [hstep], by rw [hstep]; exact hst, by rw [hstep], ?_⟩
  intro port p hp
  rw [hstep]
  have hnext := process_whole_frame K
    { st with
      db_usb_parser_port := chunk.getD 3 0
      db_usb_parser_payload_size := chunk.getD 4 0 ||| (chunk.getD 5 0 <<< 8) }
    port p hst hp hK
  refine ⟨by rw [hnext], by rw [hnext]; exact hst, by rw [hnext], by rw [hnext]⟩

/-- Witness of C6: a header that declares `2049 = DATA_UNI_LENGTH + 1` bytes. -/
theorem C6_oversize_rejected_witness :
    (process_db_usb_proto sampleConsts Parser.init [68, 66, 1, 2, 1, 8]).2 = [] ∧
    (process_db_usb_proto sampleConsts Parser.init [68, 66, 1, 2, 1, 8]).1.db_usb_parser_buffer
      = Parser.init.db_usb_parser_buffer ∧
    (process_db_usb_proto sampleConsts Parser.init [68, 66, 1, 2, 1, 8]).1.usb_parser_state
      = DB_USB_PARSER_SEARCHING_HEADER ∧
    (process_db_usb_proto sampleConsts Parser.init [68, 66, 1, 2, 1, 8]).1.usb_parser_buff_size
      = Parser.init.usb_parser_buff_size ∧
    ∀ (port : Nat) (p : List Nat), p.length ≤ sampleConsts.DATA_UNI_LENGTH →
      (process_db_usb_proto sampleConsts
        (process_db_usb_proto sampleConsts Parser.init [68, 66, 1, 2, 1, 8]).1
        (db_usb_frame sampleConsts port p)).2 = [⟨port, p⟩] ∧
      (process_db_usb_proto sampleConsts
        (process_db_usb_proto sampleConsts Parser.init [68, 66, 1, 2, 1, 8]).1
        (db_usb_frame sampleConsts port p)).1.usb_parser_state
          = DB_USB_PARSER_SEARCHING_HEADER ∧
      (process_db_usb_proto sampleConsts
        (process_db_usb_proto sampleConsts Parser.init [68, 66, 1, 2, 1, 8]).1
        (db_usb_frame sampleConsts port p)).1.usb_parser_buff_size
          = Parser.init.usb_parser_buff_size ∧
      (process_db_usb_proto sampleConsts
        (process_db_usb_proto sampleConsts Parser.init [68, 66, 1, 2, 1, 8]).1
        (db_usb_frame sampleConsts port p)).1.db_usb_parser_buffer
          = Parser.init.db_usb_parser_buffer :=
  C6_oversize_rejected sampleConsts Parser.init [68, 66, 1, 2, 1, 8] (by decide) (by decide)
    rfl (by decide) rfl rfl rfl (by decide)

/-- Agreeing parser states make the same route calls on a chunk and agree
afterwards. -/
theorem process_agree (K : Consts) (a b : Parser) (c : List Nat) (h : Parser.agree a b) :
    (process_db_usb_proto K a c).2 = (process_db_usb_proto K b c).2 ∧
    Parser.agree (process_db_usb_proto K a c).1 (process_db_usb_proto K b c).1 := by
  obtain ⟨sa, za, ka, ba, pa⟩ := a
  obtain ⟨sb, zb, kb, bb, pb⟩ := b
  simp only [Parser.agree] at h
  obtain ⟨hs, hk, hb, hps⟩ := h
  subst hs hk hb
  cases sa with
  | DB_USB_PARSER_SEARCHING_HEADER =>
    simp only [process_db_usb_proto]
    split_ifs <;> first | contradiction | simp [Parser.agree]
  | DB_USB_PARSER_AWAITING_PAYLOAD =>
    obtain ⟨h1, h2⟩ := hps rfl
    subst h1 h2
    exact ⟨rfl, rfl, rfl, rfl, fun _ => ⟨rfl, rfl⟩⟩

/-- Agreeing parser states make the same route calls on every sequence of
chunks and agree afterwards. -/
theorem feed_agree (K : Consts) :
    ∀ (cs : List (List Nat)) (a b : Parser), Parser.agree a b →
      (feed K a cs).2 = (feed K b cs).2 ∧ Parser.agree (feed K a cs).1 (feed K b cs).1 := by
  intro cs
  induction cs with
  | nil => intro a b h; exact ⟨rfl, h⟩
  | cons c cs ih =>
    intro a b h
    obtain ⟨h1, h2⟩ := process_agree K a b c h
    obtain ⟨h3, h4⟩ := ih _ _ h2
    simp only [feed]
    exact ⟨by rw [h1, h3], h4⟩

/-- C7: for every parser state in `AWAITING_PAYLOAD` with declared length `N`
and cursor `k < N`, and every chunk longer than `N - k`, the parser makes no
route call, releases the buffer, sets the cursor to 0 and returns to
`SEARCHING_HEADER`.  Nothing of the chunk is kept: on every following sequence
of chunks the parser makes the same route calls as a parser started in its
initial state, and the two end in agreeing states. -/
theorem C7_overflow_resets (K : Consts) (st : Parser) (chunk : List Nat)
    (hst : st.usb_parser_state = DB_USB_PARSER_AWAITING_PAYLOAD)
    (hk : st.usb_parser_buff_size < st.db_usb_parser_payload_size)
    (hover : st.db_usb_parser_payload_size - st.usb_parser_buff_size < chunk.length) :
    (process_db_usb_proto K st chunk).2 = [] ∧
    (process_db_usb_proto K st chunk).1.db_usb_parser_buffer = none ∧
    (process_db_usb_proto K st chunk).1.usb_parser_buff_size = 0 ∧
    (process_db_usb_proto K st chunk).1.usb_parser_state = DB_USB_PARSER_SEARCHING_HEADER ∧
    ∀ chunks : List (List Nat),
      (feed K (process_db_usb_proto K st chunk).1 chunks).2 = (feed K Parser.init chunks).2 ∧
      Parser.agree (feed K (process_db_usb_proto K st chunk).1 chunks).1
        (feed K Parser.init chunks).1 := by
  have h1 : ¬ (st.usb_parser_buff_size + chunk.length = st.db_usb_parser_payload_size) := by
    omega
  have h2 : ¬ (st.usb_parser_buff_size + chunk.length < st.db_usb_parser_payload_size) := by
    omega
  have h3 : st.usb_parser_buff_size + chunk.length > st.db_usb_parser_payload_size := by
    omega
  have hstep : process_db_usb_proto K st chunk =
      ({ st with
          db_usb_parser_buffer := none
          usb_parser_buff_size := 0
          usb_parser_state := DB_USB_PARSER_SEARCHING_HEADER }, []) := by
    simp [process_db_usb_proto, hst, h1, h2, h3]
  rw [hstep]
  refine ⟨rfl, rfl, rfl, rfl, ?_⟩
  intro chunks
  exact feed_agree K chunks _ _ ⟨rfl, rfl, rfl, fun h => by simp at h⟩

/-- Witness of C7: two of five bytes received, then a chunk of four bytes. -/
theorem C7_overflow_resets_witness :
    (process_db_usb_proto sampleConsts
      ⟨DB_USB_PARSER_AWAITING_PAYLOAD, 5, 2, some [104, 101, 0, 0, 0], 2⟩
      [108, 108, 111, 68]).2 = [] ∧
    (process_db_usb_proto sampleConsts
      ⟨DB_USB_PARSER_AWAITING_PAYLOAD, 5, 2, some [104, 101, 0, 0, 0], 2⟩
      [108, 108, 111, 68]).1.db_usb_parser_buffer = none ∧
    (process_db_usb_proto sampleConsts
      ⟨DB_USB_PARSER_AWAITING_PAYLOAD, 5, 2, some [104, 101, 0, 0, 0], 2⟩
      [108, 108, 111, 68]).1.usb_parser_buff_size = 0 ∧
    (process_db_usb_proto sampleConsts
      ⟨DB_USB_PARSER_AWAITING_PAYLOAD, 5, 2, some [104, 101, 0, 0, 0], 2⟩
      [108, 108, 111, 68]).1.usb_parser_state = DB_USB_PARSER_SEARCHING_HEADER ∧
    ∀ chunks : List (List Nat),
      (feed sampleConsts (process_db_usb_proto sampleConsts
        ⟨DB_USB_PARSER_AWAITING_PAYLOAD, 5, 2, some [104, 101, 0, 0, 0], 2⟩
        [108, 108, 111, 68]).1 chunks).2 = (feed sampleConsts Parser.init chunks).2 ∧
      Parser.agree (feed sampleConsts (process_db_usb_proto sampleConsts
        ⟨DB_USB_PARSER_AWAITING_PAYLOAD, 5, 2, some [104, 101, 0, 0, 0], 2⟩
        [108, 108, 111, 68]).1 chunks).1 (feed sampleConsts Parser.init chunks).1 :=
  C7_overflow_resets sampleConsts
    ⟨DB_USB_PARSER_AWAITING_PAYLOAD, 5, 2, some [104, 101, 0, 0, 0], 2⟩ [108, 108, 111, 68]
    rfl (by decide) (by decide)

/-! ## Claim C8: inbound routing -/

/-- C8: for every decoded `(port, payload)` the router makes at most one `send`
call, always with the payload: to the proxy socket iff `port = DB_PORT_PROXY`
and the proxy module is activated, to the status socket iff
`port = DB_PORT_STATUS` and the status module is activated, to the comm socket
iff `port = DB_PORT_COMM` and the communication module is activated, never to
the video socket; for `DB_PORT_VIDEO`, for `DB_USB_PORT_TIMEOUT_WAKE` and for
every port other than proxy, status and comm nothing is sent.  The five port
constants are distinct, as the case labels of one `switch` are. -/
theorem C8_inbound_routing (K : Consts) (M : Modules) (payload : List Nat)
    (port payload_size : Nat)
    (hd : [K.DB_PORT_VIDEO, K.DB_PORT_PROXY, K.DB_PORT_STATUS, K.DB_PORT_COMM,
      K.DB_USB_PORT_TIMEOUT_WAKE].Nodup) :
    (db_usb_route_data_tcp K M payload port payload_size).length ≤ 1 ∧
    (∀ s ∈ db_usb_route_data_tcp K M payload port payload_size,
      s.data = payload.take payload_size) ∧
    ((∃ s ∈ db_usb_route_data_tcp K M payload port payload_size, s.sock = Sock.proxy_sock) ↔
      port = K.DB_PORT_PROXY ∧ M.proxy_module_activated = true) ∧
    ((∃ s ∈ db_usb_route_data_tcp K M payload port payload_size, s.sock = Sock.status_sock) ↔
      port = K.DB_PORT_STATUS ∧ M.status_module_activated = true) ∧
    ((∃ s ∈ db_usb_route_data_tcp K M payload port payload_size,
        s.sock = Sock.communication_sock) ↔
      port = K.DB_PORT_COMM ∧ M.communication_module_activated = true) ∧
    (∀ s ∈ db_usb_route_data_tcp K M payload port payload_size,
      s.sock ≠ Sock.video_unix_socket) ∧
    (port = K.DB_PORT_VIDEO → db_usb_route_data_tcp K M payload port payload_size = []) ∧
    (port = K.DB_USB_PORT_TIMEOUT_WAKE →
      db_usb_route_data_tcp K M payload port payload_size = []) ∧
    (port ≠ K.DB_PORT_PROXY → port ≠ K.DB_PORT_STATUS → port ≠ K.DB_PORT_COMM →
      db_usb_route_data_tcp K M payload port payload_size = []) := by
  simp only [List.nodup_cons, List.mem_cons, List.mem_singleton, List.not_mem_nil, not_or,
    or_false, List.nodup_nil, and_true, not_false_eq_true] at hd
  obtain ⟨⟨h12, h13, h14, h15⟩, ⟨h23, h24, h25⟩, ⟨h34, h35⟩, h45⟩ := hd
  unfold db_usb_route_data_tcp
  by_cases hv : port = K.DB_PORT_VIDEO
  · subst hv
    simp [h12, h13, h14, h15]
  · by_cases hp : port = K.DB_PORT_PROXY
    · subst hp
      cases hM : M.proxy_module_activated <;> simp [hv, h23, h24, h25, hM]
    · by_cases hs : port = K.DB_PORT_STATUS
      · subst hs
        cases hM : M.status_module_activated <;> simp [hv, hp, h34, h35, hM]
      · by_cases hc : port = K.DB_PORT_COMM
        · subst hc
          cases hM : M.communication_module_activated <;> simp [hv, hp, hs, h45, hM]
        · simp [hv, hp, hs, hc]

/-- Witness of C8: `hello` for the proxy port with every module activated. -/
theorem C8_inbound_routing_witness :
    (db_usb_route_data_tcp sampleConsts sampleModules hello 2 5).length ≤ 1 ∧
    (∀ s ∈ db_usb_route_data_tcp sampleConsts sampleModules hello 2 5,
      s.data = hello.take 5) ∧
    ((∃ s ∈ db_usb_route_data_tcp sampleConsts sampleModules hello 2 5,
        s.sock = Sock.proxy_sock) ↔
      2 = sampleConsts.DB_PORT_PROXY ∧ sampleModules.proxy_module_activated = true) ∧
    ((∃ s ∈ db_usb_route_data_tcp sampleConsts sampleModules hello 2 5,
        s.sock = Sock.status_sock) ↔
      2 = sampleConsts.DB_PORT_STATUS ∧ sampleModules.status_module_activated = true) ∧
    ((∃ s ∈ db_usb_route_data_tcp sampleConsts sampleModules hello 2 5,
        s.sock = Sock.communication_sock) ↔
      2 = sampleConsts.DB_PORT_COMM ∧ sampleModules.communication_module_activated = true) ∧
    (∀ s ∈ db_usb_route_data_tcp sampleConsts sampleModules hello 2 5,
      s.sock ≠ Sock.video_unix_socket) ∧
    (2 = sampleConsts.DB_PORT_VIDEO →
      db_usb_route_data_tcp sampleConsts sampleModules hello 2 5 = []) ∧
    (2 = sampleConsts.DB_USB_PORT_TIMEOUT_WAKE →
      db_usb_route_data_tcp sampleConsts sampleModules hello 2 5 = []) ∧
    (2 ≠ sampleConsts.DB_PORT_PROXY → 2 ≠ sampleConsts.DB_PORT_STATUS →
      2 ≠ sampleConsts.DB_PORT_COMM →
      db_usb_route_data_tcp sampleConsts sampleModules hello 2 5 = []) :=
  C8_inbound_routing sampleConsts sampleModules hello 2 5 (by decide)

/-! ## Claim C9: the reconnect block and the parser -/

/-- C9, the code at the failing input: the device goes away after the chunk
`'D','B',1,2,5,0,'h','e'`, which left the parser in `AWAITING_PAYLOAD` with
cursor 2.  After the reconnect block the state is `SEARCHING_HEADER`, but the
cursor is still 2 and the buffer is still allocated, so the parser is not in
its initial state; the frame of `hello` fed header-first as
`'D','B',1,2,5,0,'h','e'` and `'l','l','o'` then causes no route call, while a
parser in its initial state routes `hello` on the second chunk. -/
theorem C9_recover_keeps_cursor_and_buffer :
    midFrameBridge.parser
      = ⟨DB_USB_PARSER_AWAITING_PAYLOAD, 5, 2, some [104, 101, 0, 0, 0], 2⟩ ∧
    (loop_head sampleConsts true true midFrameBridge).parser
      = ⟨DB_USB_PARSER_SEARCHING_HEADER, 5, 2, some [104, 101, 0, 0, 0], 2⟩ ∧
    (loop_head sampleConsts true true midFrameBridge).parser ≠ Parser.init ∧
    (feed sampleConsts (loop_head sampleConsts true true midFrameBridge).parser
      [[68, 66, 1, 2, 5, 0, 104, 101], [108, 108, 111]]).2 = [[], []] ∧
    (feed sampleConsts Parser.init
      [[68, 66, 1, 2, 5, 0, 104, 101], [108, 108, 111]]).2 = [[], [⟨2, hello⟩]] := by
  decide

/-! ## Claim C10: completion dispatch on the IN endpoint -/

/-- C10, counterexample: a bulk-IN transfer completes with status `NO_DEVICE`.
The callback calls `libusb_submit_transfer` on it all the same; when that call
succeeds the transfer is in flight again and is not freed, and when it fails
the transfer is freed after the attempt. -/
theorem C10_counterexample_no_device_resubmits :
    callback_usb_async_complete sampleConsts sampleModules true Parser.init true
        ⟨LIBUSB_TRANSFER_NO_DEVICE, AOA_ACCESSORY_EP_IN, [], 0⟩
      = ⟨Parser.init, [], [], [], false, 1, true, false⟩ ∧
    callback_usb_async_complete sampleConsts sampleModules false Parser.init true
        ⟨LIBUSB_TRANSFER_NO_DEVICE, AOA_ACCESSORY_EP_IN, [], 0⟩
      = ⟨Parser.init, [], [], [], false, 1, false, true⟩ := by
  decide

/-- C10, amended: for every completed bulk-IN transfer the callback hands the
received bytes to the parser iff the status is `COMPLETED`, and then calls
`libusb_submit_transfer` on the same transfer once, whatever the status, also
`NO_DEVICE`: the transfer is in flight again iff that call succeeds and is
freed iff it fails.  `connected` is false afterwards when the status is
`NO_DEVICE` and whenever the re-submission fails, and is unchanged
otherwise. -/
theorem C10_in_completion_dispatch (K : Consts) (M : Modules) (submit_ok : Bool)
    (st : Parser) (conn : Bool) (xfr : libusb_transfer)
    (hin : xfr.endpoint = AOA_ACCESSORY_EP_IN) :
    (callback_usb_async_complete K M submit_ok st conn xfr).parsed
      = (if xfr.status = LIBUSB_TRANSFER_COMPLETED then [xfr.buffer.take xfr.actual_length]
         else []) ∧
    ((callback_usb_async_complete K M submit_ok st conn xfr).parser,
      (callback_usb_async_complete K M submit_ok st conn xfr).routed)
      = (if xfr.status = LIBUSB_TRANSFER_COMPLETED then
          process_db_usb_proto K st (xfr.buffer.take xfr.actual_length)
         else (st, [])) ∧
    (callback_usb_async_complete K M submit_ok st conn xfr).submit_calls = 1 ∧
    (callback_usb_async_complete K M submit_ok st conn xfr).resubmitted = submit_ok ∧
    (callback_usb_async_complete K M submit_ok st conn xfr).freed = !submit_ok ∧
    (callback_usb_async_complete K M submit_ok st conn xfr).device_connected
      = (if xfr.status = LIBUSB_TRANSFER_NO_DEVICE ∨ submit_ok = false then false
         else conn) := by
  obtain ⟨status, endpoint, buffer, actual_length⟩ := xfr
  simp only at hin
  subst hin
  cases status <;> cases submit_ok <;> simp [callback_usb_async_complete]

/-- Witness of C10 as amended: the spec's `hello` frame completes on the IN
endpoint and the re-submission succeeds. -/
theorem C10_in_completion_dispatch_witness :
    (callback_usb_async_complete sampleConsts sampleModules true Parser.init true
      helloTransfer).parsed
      = (if helloTransfer.status = LIBUSB_TRANSFER_COMPLETED then
          [helloTransfer.buffer.take helloTransfer.actual_length]
         else []) ∧
    ((callback_usb_async_complete sampleConsts sampleModules true Parser.init true
        helloTransfer).parser,
      (callback_usb_async_complete sampleConsts sampleModules true Parser.init true
        helloTransfer).routed)
      = (if helloTransfer.status = LIBUSB_TRANSFER_COMPLETED then
          process_db_usb_proto sampleConsts Parser.init
            (helloTransfer.buffer.take helloTransfer.actual_length)
         else (Parser.init, [])) ∧
    (callback_usb_async_complete sampleConsts sampleModules true Parser.init true
      helloTransfer).submit_calls = 1 ∧
    (callback_usb_async_complete sampleConsts sampleModules true Parser.init true
      helloTransfer).resubmitted = true ∧
    (callback_usb_async_complete sampleConsts sampleModules true Parser.init true
      helloTransfer).freed = !true ∧
    (callback_usb_async_complete sampleConsts sampleModules true Parser.init true
      helloTransfer).device_connected
      = (if helloTransfer.status = LIBUSB_TRANSFER_NO_DEVICE ∨ true = false then false
         else true) :=
  C10_in_completion_dispatch sampleConsts sampleModules true Parser.init true helloTransfer rfl

/-! ## Claims C11 and C12: a first chunk longer than its frame -/

/-- C11, the code at the failing input: from the initial state the whole frame
of `hello` is fed, then the chunk `'D','B',1,2,2,0,'a','b','c'`, which has a
valid header, declares `N = 2` and carries a tail of 3 bytes, one byte more
than the frame.  The first chunk is routed and leaves the parser reset.  The
second chunk is malformed, yet the code logs no error for it: it allocates the
buffer of 2 bytes, copies the 3 tail bytes into it, which runs past the end of
the block, sets the cursor to 3 and moves to `AWAITING_PAYLOAD`.  After this
chunk the buffer is not released, the state is not `SEARCHING_HEADER` and the
cursor is not 0. -/
theorem C11_malformed_first_chunk_keeps_buffer :
    (feed sampleConsts Parser.init
      [db_usb_frame sampleConsts 2 hello, [68, 66, 1, 2, 2, 0, 97, 98, 99]]).2
      = [[⟨2, hello⟩], []] ∧
    (feed sampleConsts Parser.init [db_usb_frame sampleConsts 2 hello]).1
      = ⟨DB_USB_PARSER_SEARCHING_HEADER, 5, 0, none, 2⟩ ∧
    process_db_usb_proto_rejects sampleConsts
      (feed sampleConsts Parser.init [db_usb_frame sampleConsts 2 hello]).1
      [68, 66, 1, 2, 2, 0, 97, 98, 99] = false ∧
    memcpy_overruns (malloc 2) 0 [97, 98, 99] = true ∧
    (feed sampleConsts Parser.init
      [db_usb_frame sampleConsts 2 hello,
        [68, 66, 1, 2, 2, 0, 97, 98, 99]]).1.usb_parser_state
      = DB_USB_PARSER_AWAITING_PAYLOAD ∧
    (feed sampleConsts Parser.init
      [db_usb_frame sampleConsts 2 hello,
        [68, 66, 1, 2, 2, 0, 97, 98, 99]]).1.db_usb_parser_buffer.isSome = true ∧
    (feed sampleConsts Parser.init
      [db_usb_frame sampleConsts 2 hello,
        [68, 66, 1, 2, 2, 0, 97, 98, 99]]).1.db_usb_parser_payload_size = 2 ∧
    (feed sampleConsts Parser.init
      [db_usb_frame sampleConsts 2 hello,
        [68, 66, 1, 2, 2, 0, 97, 98, 99]]).1.usb_parser_buff_size = 3 := by
  decide

/-- C12, the code at the failing input: in the initial state the chunk
`'D','B',1,2,1,0,'h','e'` has a valid header, declares `N = 1` and carries a
tail of 2 bytes.  The code takes the branch of the incomplete payload: it
allocates the buffer of 1 byte, copies the tail into it, sets the cursor to 2
and moves to `AWAITING_PAYLOAD`; it does not log an error.  No route call is
made.  The next chunk, even an empty one, then runs into the overflow branch,
which resets the parser. -/
theorem C12_long_first_chunk_starts_reassembly :
    process_db_usb_proto sampleConsts Parser.init [68, 66, 1, 2, 1, 0, 104, 101]
      = (⟨DB_USB_PARSER_AWAITING_PAYLOAD, 1, 2, some [104], 2⟩, []) ∧
    process_db_usb_proto_rejects sampleConsts Parser.init [68, 66, 1, 2, 1, 0, 104, 101]
      = false ∧
    process_db_usb_proto sampleConsts
        ⟨DB_USB_PARSER_AWAITING_PAYLOAD, 1, 2, some [104], 2⟩ []
      = (⟨DB_USB_PARSER_SEARCHING_HEADER, 1, 0, none, 2⟩, []) ∧
    process_db_usb_proto sampleConsts
        ⟨DB_USB_PARSER_AWAITING_PAYLOAD, 5, 2, some [104, 101, 0, 0, 0], 2⟩ [108, 108, 111, 68]
      = (⟨DB_USB_PARSER_SEARCHING_HEADER, 5, 0, none, 2⟩, []) := by
  decide

/-! ## The poll registry -/

theorem pollfd_clear_clear (p : pollfd) : p.clear.clear = p.clear := rfl

/-- With the flag set, the loop body overwrites entry `i`: with the cleared
entry at the last index, with entry `i + 1` elsewhere. -/
theorem usb_fd_removed_body_flag (fd : Int) (n : Nat) (arr : List pollfd) (i : Nat)
    (hi : i < arr.length) :
    usb_fd_removed_body fd n (arr, true) i =
      (arr.set i (if i = n - 1 then (arr.getD i pollfd.zero).clear
        else arr.getD (i + 1) pollfd.zero), true) := by
  unfold usb_fd_removed_body
  by_cases hfd : (arr.getD i pollfd.zero).fd = fd
  · simp only [hfd, if_true]
    by_cases hl : i = n - 1
    · rw [if_pos hl, if_pos hl]
      simp [hi, pollfd_clear_clear]
    · rw [if_neg hl, if_neg hl]
      simp [hi]
  · simp only [hfd, if_false, if_true]
    split <;> rfl

/-- With the flag not set, an entry with another descriptor is left alone. -/
theorem usb_fd_removed_body_skip (fd : Int) (n : Nat) (arr : List pollfd) (i : Nat)
    (hfd : (arr.getD i pollfd.zero).fd ≠ fd) :
    usb_fd_removed_body fd n (arr, false) i = (arr, false) := by
  unfold usb_fd_removed_body
  simp only [hfd, if_false]
  simp

/-- With the flag not set, an entry with the descriptor sets the flag and is
overwritten as when the flag is set. -/
theorem usb_fd_removed_body_hit (fd : Int) (n : Nat) (arr : List pollfd) (i : Nat)
    (hi : i < arr.length) (hfd : (arr.getD i pollfd.zero).fd = fd) :
    usb_fd_removed_body fd n (arr, false) i =
      (arr.set i (if i = n - 1 then (arr.getD i pollfd.zero).clear
        else arr.getD (i + 1) pollfd.zero), true) := by
  unfold usb_fd_removed_body
  simp only [hfd, if_true]
  by_cases hl : i = n - 1
  · rw [if_pos hl, if_pos hl]
    simp [hi, pollfd_clear_clear]
  · rw [if_neg hl, if_neg hl]
    simp [hi]

/-- The state of the loop of `usb_fd_removed` after the first `k` passes. -/
theorem usb_fd_removed_loop_none (fd : Int) (n : Nat) (orig : List pollfd) :
    ∀ k : Nat, (∀ i, i < k → (orig.getD i pollfd.zero).fd ≠ fd) →
      (List.range k).foldl (usb_fd_removed_body fd n) (orig, false) = (orig, false) := by
  intro k
  induction k with
  | zero => intro _; rfl
  | succ k ih =>
    intro h
    rw [List.range_succ, List.foldl_append, ih (fun i hi => h i (by omega))]
    exact usb_fd_removed_body_skip fd n orig k (h k (by omega))

/-- The loop of `usb_fd_removed` when the first entry with descriptor `fd` is at
index `j`: after `k > j` passes the flag is set, the entries `j .. k - 1` hold
what followed them (the last entry of the registry is cleared instead), and
every other entry is as before. -/
theorem usb_fd_removed_loop_found (fd : Int) (n : Nat) (orig : List pollfd) (j : Nat)
    (hn : n ≤ orig.length) (hj : j < n)
    (hfd : (orig.getD j pollfd.zero).fd = fd)
    (hfirst : ∀ i, i < j → (orig.getD i pollfd.zero).fd ≠ fd) :
    ∀ k : Nat, j < k → k ≤ n →
      ((List.range k).foldl (usb_fd_removed_body fd n) (orig, false)).2 = true ∧
      ∀ m : Nat,
        ((List.range k).foldl (usb_fd_removed_body fd n) (orig, false)).1[m]? =
          if j ≤ m ∧ m < k then
            (if m = n - 1 then orig[m]?.map pollfd.clear else orig[m + 1]?)
          else orig[m]? := by
  intro k
  induction k with
  | zero => intro h; omega
  | succ k ih =>
    intro hjk hkn
    rw [List.range_succ, List.foldl_append]
    simp only [List.foldl_cons, List.foldl_nil]
    have hk : k < orig.length := by omega
    by_cases hjk' : j = k
    · -- the pass that finds the descriptor
      subst hjk'
      rw [usb_fd_removed_loop_none fd n orig j hfirst,
        usb_fd_removed_body_hit fd n orig j hk hfd]
      refine ⟨rfl, fun m => ?_⟩
      rw [List.getElem?_set]
      by_cases hm : j = m
      · subst hm
        by_cases hl : j = n - 1
        · simp [hk, hl]
          have : n - 1 < orig.length := by omega
          simp [this]
        · have : j + 1 < orig.length := by omega
          simp [hk, hl, this]
      · have : ¬ (j ≤ m ∧ m < j + 1) := by omega
        simp [hm, this]
    · -- a later pass
      obtain ⟨hflag, hget⟩ := ih (by omega) (by omega)
      rcases hS : (List.range k).foldl (usb_fd_removed_body fd n) (orig, false) with ⟨arr, flag⟩
      rw [hS] at hflag hget
      simp only at hflag hget
      subst hflag
      have hlen : k < arr.length := by
        have := hget k
        have hnot : ¬ (j ≤ k ∧ k < k) := by omega
        rw [if_neg hnot, List.getElem?_eq_getElem hk] at this
        by_contra hc
        rw [List.getElem?_eq_none (by omega)] at this
        cases this
      rw [usb_fd_removed_body_flag fd n arr k hlen]
      refine ⟨rfl, fun m => ?_⟩
      rw [List.getElem?_set]
      by_cases hm : k = m
      · subst hm
        have hin : j ≤ k ∧ k < k + 1 := by omega
        have hk0 := hget k
        have hnot : ¬ (j ≤ k ∧ k < k) := by omega
        rw [if_neg hnot] at hk0
        by_cases hl : k = n - 1
        · simp only [if_pos rfl, hlen, if_true, if_pos hin, if_pos hl]
          simp only [List.getD_eq_getElem?_getD, hk0, List.getElem?_eq_getElem hk]
          simp
        · have hk1 := hget (k + 1)
          have hnot1 : ¬ (j ≤ k + 1 ∧ k + 1 < k) := by omega
          rw [if_neg hnot1] at hk1
          have hk1' : k + 1 < orig.length := by omega
          simp only [if_pos rfl, hlen, if_true, if_pos hin, if_neg hl]
          simp only [List.getD_eq_getElem?_getD, hk1, List.getElem?_eq_getElem hk1']
          simp
      · rw [if_neg hm, hget m]
        by_cases hin : j ≤ m ∧ m < k
        · have hin' : j ≤ m ∧ m < k + 1 := by omega
          rw [if_pos hin, if_pos hin']
        · have hin' : ¬ (j ≤ m ∧ m < k + 1) := by omega
          rw [if_neg hin, if_neg hin']

/-- When no entry in use has the descriptor, `usb_fd_removed` changes
nothing. -/
theorem usb_fd_removed_none (fd : Int) (r : PollState)
    (h : ∀ i, i < r.fd_cnt.total_poll_fd_cnt → (r.poll_fds.getD i pollfd.zero).fd ≠ fd) :
    usb_fd_removed fd r = r := by
  unfold usb_fd_removed
  rw [usb_fd_removed_loop_none fd r.fd_cnt.total_poll_fd_cnt r.poll_fds _ h]
  rfl

/-- When the first entry in use with the descriptor is at index `j`,
`usb_fd_removed` leaves the entries in use without entry `j`, then the cleared
last entry, then the entries that were not in use, and lowers both counters. -/
theorem usb_fd_removed_found (fd : Int) (r : PollState) (j : Nat)
    (hn : r.fd_cnt.total_poll_fd_cnt ≤ r.poll_fds.length)
    (hj : j < r.fd_cnt.total_poll_fd_cnt)
    (hfd : (r.poll_fds.getD j pollfd.zero).fd = fd)
    (hfirst : ∀ i, i < j → (r.poll_fds.getD i pollfd.zero).fd ≠ fd) :
    usb_fd_removed fd r =
      { poll_fds :=
          (r.poll_fds.take r.fd_cnt.total_poll_fd_cnt).eraseIdx j ++
            (r.poll_fds.getD (r.fd_cnt.total_poll_fd_cnt - 1) pollfd.zero).clear ::
              r.poll_fds.drop r.fd_cnt.total_poll_fd_cnt
        fd_cnt :=
          { total_poll_fd_cnt := r.fd_cnt.total_poll_fd_cnt - 1
            usb_poll_fd_cnt := r.fd_cnt.usb_poll_fd_cnt - 1 } } := by
  obtain ⟨orig, ⟨n, u⟩⟩ := r
  simp only at hn hj hfd hfirst ⊢
  obtain ⟨hflag, hget⟩ := usb_fd_removed_loop_found fd n orig j hn hj hfd hfirst n hj
    (Nat.le_refl n)
  unfold usb_fd_removed
  simp only [hflag, if_true]
  congr 1
  apply List.ext_getElem?
  intro m
  rw [hget m]
  have hlenT : (orig.take n).length = n := by rw [List.length_take]; omega
  have hlenE : ((orig.take n).eraseIdx j).length = n - 1 := by
    rw [List.length_eraseIdx_of_lt (by omega), hlenT]
  by_cases hm1 : m < n - 1
  · rw [List.getElem?_append_left (by omega), List.getElem?_eraseIdx]
    by_cases hmj : m < j
    · have hnot : ¬ (j ≤ m ∧ m < n) := by omega
      rw [if_neg hnot, if_pos hmj, List.getElem?_take_of_lt (by omega)]
    · have hin : j ≤ m ∧ m < n := by omega
      have hne : ¬ m = n - 1 := by omega
      rw [if_pos hin, if_neg hne, if_neg hmj, List.getElem?_take_of_lt (by omega)]
  · rw [List.getElem?_append_right (by omega), hlenE]
    by_cases hm2 : m = n - 1
    · have hin : j ≤ m ∧ m < n := by omega
      have hmo : m < orig.length := by omega
      rw [if_pos hin, if_pos hm2, hm2, Nat.sub_self]
      have hmo' : n - 1 < orig.length := by omega
      simp [List.getElem?_eq_getElem hmo']
    · have hnot : ¬ (j ≤ m ∧ m < n) := by omega
      rw [if_neg hnot]
      obtain ⟨d, hd⟩ : ∃ d, m - (n - 1) = d + 1 := ⟨m - n, by omega⟩
      rw [hd, List.getElem?_cons_succ, List.getElem?_drop]
      congr 1
      omega

/-- The first entry in use with the descriptor, when there is one. -/
theorem first_entry_with_fd (fd : Int) (orig : List pollfd) (n : Nat) (hn : n ≤ orig.length)
    (h : ∃ e ∈ orig.take n, e.fd = fd) :
    ∃ j, j < n ∧ (orig.getD j pollfd.zero).fd = fd ∧
      (∀ i, i < j → (orig.getD i pollfd.zero).fd ≠ fd) ∧
      (orig.take n).eraseP (fun e => decide (e.fd = fd)) = (orig.take n).eraseIdx j := by
  obtain ⟨e, he, hfd⟩ := h
  obtain ⟨a, l₁, l₂, h1, ha, hT, hE⟩ :=
    List.exists_of_eraseP (p := fun e => decide (e.fd = fd)) he (by simpa using hfd)
  have hlenT : (orig.take n).length = n := by rw [List.length_take]; omega
  have hlen : l₁.length + 1 + l₂.length = n := by
    rw [← hlenT, hT]; simp only [List.length_append, List.length_cons]; omega
  have hgetT : ∀ i, i < n → orig.getD i pollfd.zero = (orig.take n).getD i pollfd.zero := by
    intro i hi
    simp only [List.getD_eq_getElem?_getD, List.getElem?_take_of_lt hi]
  refine ⟨l₁.length, by omega, ?_, ?_, ?_⟩
  · rw [hgetT _ (by omega), hT]
    simp only [List.getD_eq_getElem?_getD]
    rw [List.getElem?_append_right (Nat.le_refl _), Nat.sub_self]
    simpa using ha
  · intro i hi
    rw [hgetT _ (by omega), hT]
    simp only [List.getD_eq_getElem?_getD]
    rw [List.getElem?_append_left hi, List.getElem?_eq_getElem hi]
    have := h1 _ (List.getElem_mem hi)
    simpa using this
  · rw [hE, hT, List.eraseIdx_append_of_length_le (Nat.le_refl _), Nat.sub_self]
    rfl

theorem not_found_getD (fd : Int) (orig : List pollfd) (n : Nat) (hn : n ≤ orig.length)
    (h : ∀ e ∈ orig.take n, e.fd ≠ fd) :
    ∀ i, i < n → (orig.getD i pollfd.zero).fd ≠ fd := by
  intro i hi
  have hi' : i < orig.length := by omega
  have hmem : orig[i] ∈ orig.take n := by
    rw [List.mem_take_iff_getElem]
    exact ⟨i, by rw [Nat.lt_min]; exact ⟨hi, hi'⟩, rfl⟩
  have := h _ hmem
  simpa [List.getElem?_eq_getElem hi'] using this

/-- The loop of `usb_fd_removed` keeps the length of the array. -/
theorem usb_fd_removed_body_length (fd : Int) (n : Nat) (s : List pollfd × Bool) (i : Nat) :
    (usb_fd_removed_body fd n s i).1.length = s.1.length := by
  obtain ⟨arr, flag⟩ := s
  cases flag <;> simp only [usb_fd_removed_body] <;> split_ifs <;> simp

theorem usb_fd_removed_length (fd : Int) (r : PollState) :
    (usb_fd_removed fd r).poll_fds.length = r.poll_fds.length := by
  have hloop : ∀ (is : List Nat) (s : List pollfd × Bool),
      (is.foldl (usb_fd_removed_body fd r.fd_cnt.total_poll_fd_cnt) s).1.length
        = s.1.length := by
    intro is
    induction is with
    | nil => intro s; rfl
    | cons i is ih =>
      intro s
      rw [List.foldl_cons, ih, usb_fd_removed_body_length]
  simp only [usb_fd_removed]
  split_ifs <;> exact hloop _ _

theorem usb_fd_removed_total_le (fd : Int) (r : PollState) :
    (usb_fd_removed fd r).fd_cnt.total_poll_fd_cnt ≤ r.fd_cnt.total_poll_fd_cnt := by
  simp only [usb_fd_removed]
  split_ifs
  · exact Nat.sub_le _ _
  · exact Nat.le_refl _

theorem usb_fd_added_length (K : Consts) (fd events : Int) (r : PollState) :
    (usb_fd_added K fd events r).poll_fds.length = r.poll_fds.length := by
  unfold usb_fd_added
  split_ifs <;> simp

theorem usb_fd_added_total_le (K : Consts) (fd events : Int) (r : PollState)
    (h : r.fd_cnt.total_poll_fd_cnt ≤ K.MAX_POLL_FDS) :
    (usb_fd_added K fd events r).fd_cnt.total_poll_fd_cnt ≤ K.MAX_POLL_FDS := by
  unfold usb_fd_added
  split_ifs with hlt
  · exact hlt
  · exact h

/-- Every call keeps the array length and the bound on the total. -/
theorem call_keeps_bounds (K : Consts) (r : PollState) (call : FdCall)
    (hlen : r.poll_fds.length = K.MAX_POLL_FDS)
    (htot : r.fd_cnt.total_poll_fd_cnt ≤ K.MAX_POLL_FDS) :
    (call.run K r).poll_fds.length = K.MAX_POLL_FDS ∧
    (call.run K r).fd_cnt.total_poll_fd_cnt ≤ K.MAX_POLL_FDS := by
  cases call with
  | added fd events =>
    exact ⟨by rw [FdCall.run, usb_fd_added_length, hlen], usb_fd_added_total_le K fd events r htot⟩
  | removed fd =>
    exact ⟨by rw [FdCall.run, usb_fd_removed_length, hlen],
      Nat.le_trans (usb_fd_removed_total_le fd r) htot⟩

/-- A sequence of calls keeps the array length and the bound on the total. -/
theorem run_calls_keeps_bounds (K : Consts) :
    ∀ (calls : List FdCall) (r : PollState),
      r.poll_fds.length = K.MAX_POLL_FDS →
      r.fd_cnt.total_poll_fd_cnt ≤ K.MAX_POLL_FDS →
      (run_calls K r calls).poll_fds.length = K.MAX_POLL_FDS ∧
      (run_calls K r calls).fd_cnt.total_poll_fd_cnt ≤ K.MAX_POLL_FDS := by
  intro calls
  induction calls with
  | nil => intro r h1 h2; exact ⟨h1, h2⟩
  | cons call calls ih =>
    intro r h1 h2
    obtain ⟨h3, h4⟩ := call_keeps_bounds K r call h1 h2
    rw [run_calls, List.foldl_cons]
    exact ih (call.run K r) h3 h4

theorem take_succ_append_cons (A rest : List pollfd) (c : pollfd) (n : Nat)
    (h : A.length + 1 = n) : (A ++ c :: rest).take n = A ++ [c] := by
  subst h
  rw [List.take_append_eq_append_take]
  simp

/-! ## Claims C13 to C15: the descriptor registry -/

/-- C13: for every registry with `total ≤ MAX_POLL_FDS` and every `fd`: if `fd`
occurs among the first `total` entries, then afterwards the first `total - 1`
entries are the original entries in use with only the first entry of
descriptor `fd` erased (every other entry, later entries with the same
descriptor included, is kept whole and in order), and `total` and `U` are each
lowered by exactly 1; if `fd` does not occur, the registry is unchanged.  The
entries at index `total` and above are not written (they are the same
afterwards) and not read (registries that agree on the first `total` entries
and on the counters give the same first `total` entries and counters). -/
theorem C13_usb_fd_removed (K : Consts) (r : PollState) (fd : Int)
    (hlen : r.poll_fds.length = K.MAX_POLL_FDS)
    (htot : r.fd_cnt.total_poll_fd_cnt ≤ K.MAX_POLL_FDS) :
    ((∃ e ∈ r.poll_fds.take r.fd_cnt.total_poll_fd_cnt, e.fd = fd) →
      (usb_fd_removed fd r).poll_fds.take (r.fd_cnt.total_poll_fd_cnt - 1)
        = (r.poll_fds.take r.fd_cnt.total_poll_fd_cnt).eraseP (fun e => decide (e.fd = fd)) ∧
      (usb_fd_removed fd r).fd_cnt.total_poll_fd_cnt + 1 = r.fd_cnt.total_poll_fd_cnt ∧
      (usb_fd_removed fd r).fd_cnt.usb_poll_fd_cnt = r.fd_cnt.usb_poll_fd_cnt - 1) ∧
    ((∀ e ∈ r.poll_fds.take r.fd_cnt.total_poll_fd_cnt, e.fd ≠ fd) →
      usb_fd_removed fd r = r) ∧
    (usb_fd_removed fd r).poll_fds.drop r.fd_cnt.total_poll_fd_cnt
      = r.poll_fds.drop r.fd_cnt.total_poll_fd_cnt ∧
    (usb_fd_removed fd r).poll_fds.length = r.poll_fds.length ∧
    (∀ r2 : PollState, r2.fd_cnt = r.fd_cnt → r2.poll_fds.length = r.poll_fds.length →
      r2.poll_fds.take r.fd_cnt.total_poll_fd_cnt
        = r.poll_fds.take r.fd_cnt.total_poll_fd_cnt →
      (usb_fd_removed fd r2).poll_fds.take r.fd_cnt.total_poll_fd_cnt
        = (usb_fd_removed fd r).poll_fds.take r.fd_cnt.total_poll_fd_cnt ∧
      (usb_fd_removed fd r2).fd_cnt = (usb_fd_removed fd r).fd_cnt) := by
  have hn : r.fd_cnt.total_poll_fd_cnt ≤ r.poll_fds.length := by omega
  by_cases hfound : ∃ e ∈ r.poll_fds.take r.fd_cnt.total_poll_fd_cnt, e.fd = fd
  · obtain ⟨j, hj, hfd, hfirst, herase⟩ :=
      first_entry_with_fd fd r.poll_fds r.fd_cnt.total_poll_fd_cnt hn hfound
    have hres := usb_fd_removed_found fd r j hn hj hfd hfirst
    have hlenE : ((r.poll_fds.take r.fd_cnt.total_poll_fd_cnt).eraseIdx j).length
        = r.fd_cnt.total_poll_fd_cnt - 1 := by
      rw [List.length_eraseIdx_of_lt (by rw [List.length_take]; omega), List.length_take]
      omega
    refine ⟨fun _ => ⟨?_, ?_, ?_⟩, ?_, ?_, usb_fd_removed_length fd r, ?_⟩
    · rw [hres, herase]
      simp only
      rw [List.take_append_of_le_length (by omega), List.take_of_length_le (by omega)]
    · rw [hres]
      simp only
      omega
    · rw [hres]
    · intro hnone
      obtain ⟨e, he, hefd⟩ := hfound
      exact absurd hefd (hnone e he)
    · rw [hres]
      simp only
      have hsplit : r.fd_cnt.total_poll_fd_cnt
          = ((r.poll_fds.take r.fd_cnt.total_poll_fd_cnt).eraseIdx j).length + 1 := by
        omega
      rw [List.drop_append_eq_append_drop, List.drop_eq_nil_of_le (by omega), List.nil_append,
        hlenE]
      have hone : r.fd_cnt.total_poll_fd_cnt - (r.fd_cnt.total_poll_fd_cnt - 1) = 1 := by
        omega
      rw [hone]
      rfl
    · intro r2 hcnt hlen2 htake
      have hn2 : r2.fd_cnt.total_poll_fd_cnt ≤ r2.poll_fds.length := by rw [hcnt, hlen2]; exact hn
      have hget : ∀ i, i < r.fd_cnt.total_poll_fd_cnt →
          r2.poll_fds.getD i pollfd.zero = r.poll_fds.getD i pollfd.zero := by
        intro i hi
        have h1 := List.getElem?_take_of_lt (l := r2.poll_fds) hi
        have h2 := List.getElem?_take_of_lt (l := r.poll_fds) hi
        simp only [List.getD_eq_getElem?_getD, ← h1, ← h2, htake]
      have hres2 := usb_fd_removed_found fd r2 j hn2 (by rw [hcnt]; exact hj)
        (by rw [hget j hj]; exact hfd)
        (fun i hi => by rw [hget i (by omega)]; exact hfirst i hi)
      rw [hres, hres2, hcnt]
      simp only [htake, and_true]
      rw [take_succ_append_cons _ _ _ _ (by omega), take_succ_append_cons _ _ _ _ (by omega),
        hget _ (by omega)]
  · have hnone : ∀ e ∈ r.poll_fds.take r.fd_cnt.total_poll_fd_cnt, e.fd ≠ fd := by
      intro e he hfd
      exact hfound ⟨e, he, hfd⟩
    have hres := usb_fd_removed_none fd r (not_found_getD fd _ _ hn hnone)
    refine ⟨fun h => absurd h hfound, fun _ => hres, by rw [hres], by rw [hres], ?_⟩
    intro r2 hcnt hlen2 htake
    have hn2 : r2.fd_cnt.total_poll_fd_cnt ≤ r2.poll_fds.length := by rw [hcnt, hlen2]; exact hn
    have hres2 := usb_fd_removed_none fd r2
      (not_found_getD fd _ _ hn2 (by rw [hcnt, htake]; exact hnone))
    rw [hres, hres2]
    exact ⟨htake, hcnt⟩

/-- Witness of C13: the descriptor 5 occurs at the positions 1 and 2 of four
entries in use; the first one is erased, the second one moves to position 1. -/
theorem C13_usb_fd_removed_witness :
    (usb_fd_removed 5 sampleRegistry).poll_fds.take 3 = [⟨1, 1, 0⟩, ⟨5, 3, 0⟩, ⟨7, 4, 0⟩] ∧
    (usb_fd_removed 5 sampleRegistry).fd_cnt = ⟨3, 1⟩ :=
  have h := (C13_usb_fd_removed sampleConsts sampleRegistry 5 (by decide) (by decide)).1
    ⟨⟨5, 2, 0⟩, by decide, rfl⟩
  ⟨h.1.trans (by decide), by decide⟩

/-- C15: for every registry with `total ≤ MAX_POLL_FDS` and every
`(fd, events)`: if `total < MAX_POLL_FDS`, the entry at position `total` gets
`fd` and `events`, every other entry is unchanged (those below that position in
particular), and `U` and `total` are each raised by 1; if
`total = MAX_POLL_FDS`, the array and both counters are unchanged.  Hence the
bound `total ≤ MAX_POLL_FDS` holds after every add, after every remove and
after every sequence of adds and removes. -/
theorem C15_usb_fd_added (K : Consts) (r : PollState) (fd events : Int)
    (hlen : r.poll_fds.length = K.MAX_POLL_FDS)
    (htot : r.fd_cnt.total_poll_fd_cnt ≤ K.MAX_POLL_FDS) :
    (r.fd_cnt.total_poll_fd_cnt < K.MAX_POLL_FDS →
      ((usb_fd_added K fd events r).poll_fds.getD r.fd_cnt.total_poll_fd_cnt pollfd.zero).fd
        = fd ∧
      ((usb_fd_added K fd events r).poll_fds.getD r.fd_cnt.total_poll_fd_cnt pollfd.zero).events
        = events ∧
      (usb_fd_added K fd events r).poll_fds.take r.fd_cnt.total_poll_fd_cnt
        = r.poll_fds.take r.fd_cnt.total_poll_fd_cnt ∧
      (usb_fd_added K fd events r).poll_fds.drop (r.fd_cnt.total_poll_fd_cnt + 1)
        = r.poll_fds.drop (r.fd_cnt.total_poll_fd_cnt + 1) ∧
      (usb_fd_added K fd events r).fd_cnt.total_poll_fd_cnt = r.fd_cnt.total_poll_fd_cnt + 1 ∧
      (usb_fd_added K fd events r).fd_cnt.usb_poll_fd_cnt = r.fd_cnt.usb_poll_fd_cnt + 1) ∧
    (r.fd_cnt.total_poll_fd_cnt = K.MAX_POLL_FDS → usb_fd_added K fd events r = r) ∧
    (usb_fd_added K fd events r).fd_cnt.total_poll_fd_cnt ≤ K.MAX_POLL_FDS ∧
    (∀ fd2 : Int, (usb_fd_removed fd2 r).fd_cnt.total_poll_fd_cnt ≤ K.MAX_POLL_FDS) ∧
    (∀ calls : List FdCall,
      (run_calls K r calls).fd_cnt.total_poll_fd_cnt ≤ K.MAX_POLL_FDS) := by
  refine ⟨?_, ?_, usb_fd_added_total_le K fd events r htot,
    fun fd2 => Nat.le_trans (usb_fd_removed_total_le fd2 r) htot,
    fun calls => (run_calls_keeps_bounds K calls r hlen htot).2⟩
  · intro hlt
    have hi : r.fd_cnt.total_poll_fd_cnt < r.poll_fds.length := by omega
    simp only [usb_fd_added, hlt, if_true]
    refine ⟨?_, ?_, ?_, ?_, trivial, trivial⟩
    · simp [hi]
    · simp [hi]
    · rw [List.set_take, List.set_eq_of_length_le]
      rw [List.length_take]
      omega
    · rw [List.drop_set_of_lt _ _ (by omega)]
  · intro heq
    have hnot : ¬ r.fd_cnt.total_poll_fd_cnt < K.MAX_POLL_FDS := by omega
    simp only [usb_fd_added, hnot, if_false]

/-- Witness of C15: a descriptor is added to a registry with four of eight
entries in use. -/
theorem C15_usb_fd_added_witness :
    (usb_fd_added sampleConsts 11 4 sampleRegistry).poll_fds
      = [⟨1, 1, 0⟩, ⟨5, 2, 0⟩, ⟨5, 3, 0⟩, ⟨7, 4, 0⟩, ⟨11, 4, 9⟩, pollfd.zero, pollfd.zero,
          pollfd.zero] ∧
    (usb_fd_added sampleConsts 11 4 sampleRegistry).fd_cnt.total_poll_fd_cnt = 4 + 1 ∧
    (usb_fd_added sampleConsts 11 4 sampleRegistry).fd_cnt.usb_poll_fd_cnt = 2 + 1 ∧
    (usb_fd_added sampleConsts 11 4 sampleRegistry).fd_cnt.total_poll_fd_cnt
      ≤ sampleConsts.MAX_POLL_FDS :=
  have h := C15_usb_fd_added sampleConsts sampleRegistry 11 4 (by decide) (by decide)
  ⟨by decide, (h.1 (by decide)).2.2.2.2.1, (h.1 (by decide)).2.2.2.2.2, h.2.2.1⟩

end DroneBridge
